import Mathlib

/-!
# generator-jhipster-react-native: manifest merge, entity command, setupVariables

A shallow embedding of three pieces of the repository and the properties
proved about them:

* `mergePackageJsons` (src/boilerplate.js, lines 183-214): the pure core of the
  package.json merge, written with the Ramda combinators `merge`, `assoc`,
  `omit` and `pipe`;
* the entity command (src/src/entity/index.js): the exported async function,
  as a function from the command context, the working tree and the answers
  typed at the prompt to the sequence of I/O operations it performs and the
  working tree it leaves behind;
* `setupVariables` / `loadVariables` (src/lib/setup-variables.js).

## Modelling conventions

* JavaScript values are the JSON data constructors plus `undefined`
  (`Value`). Numbers are never inspected by the modelled code, so their
  payload is an integer.
* An object is the list of its own enumerable properties in enumeration
  order. A list that is read as an object is read the way `JSON.parse` reads
  a member list: when a key occurs twice, the last member gives the value.
  Every object the modelled code builds has unique keys, array-index keys
  first in ascending order, then the other keys in creation order
  (`OrdinaryOwnPropertyKeys`).
* `JSON.parse` and object spread define own properties (`defineProp`), so
  for them `__proto__` is a key like any other. Ramda `merge`, `assoc` and
  `omit` assign (`setProp`): on a fresh object an assignment to `__proto__`
  runs the setter of `Object.prototype`, which changes the prototype and
  creates no own property. The objects these combinators build therefore
  carry their prototype (`JsObject`), whose enumerable properties `for-in`
  visits after the own ones.
* Paths are compared as the strings the code builds; the file system is a
  map from such strings to what the path holds.
-/

/-! ## Values and objects -/

/-- JavaScript values that occur in the modelled code: JSON data and `undefined`. -/
inductive Value where
  | undefined
  | null
  | bool (b : Bool)
  | num (n : Int)
  | str (s : String)
  | arr (items : List Value)
  | obj (entries : List (String × Value))

/-- Own enumerable properties of an object, in enumeration order. -/
abbrev Obj := List (String × Value)

namespace Value

mutual
/-- Decision procedure for equality of values. -/
def decEqValue : (a b : Value) → Decidable (a = b)
  | undefined, undefined => isTrue rfl
  | null, null => isTrue rfl
  | bool a, bool b =>
    if h : a = b then isTrue (by rw [h]) else isFalse (by intro e; cases e; exact h rfl)
  | num a, num b =>
    if h : a = b then isTrue (by rw [h]) else isFalse (by intro e; cases e; exact h rfl)
  | str a, str b =>
    if h : a = b then isTrue (by rw [h]) else isFalse (by intro e; cases e; exact h rfl)
  | arr a, arr b =>
    match decEqItems a b with
    | isTrue h => isTrue (by rw [h])
    | isFalse h => isFalse (by intro e; cases e; exact h rfl)
  | obj a, obj b =>
    match decEqEntries a b with
    | isTrue h => isTrue (by rw [h])
    | isFalse h => isFalse (by intro e; cases e; exact h rfl)
  | undefined, null => isFalse (by intro e; cases e)
  | undefined, bool _ => isFalse (by intro e; cases e)
  | undefined, num _ => isFalse (by intro e; cases e)
  | undefined, str _ => isFalse (by intro e; cases e)
  | undefined, arr _ => isFalse (by intro e; cases e)
  | undefined, obj _ => isFalse (by intro e; cases e)
  | null, undefined => isFalse (by intro e; cases e)
  | null, bool _ => isFalse (by intro e; cases e)
  | null, num _ => isFalse (by intro e; cases e)
  | null, str _ => isFalse (by intro e; cases e)
  | null, arr _ => isFalse (by intro e; cases e)
  | null, obj _ => isFalse (by intro e; cases e)
  | bool _, undefined => isFalse (by intro e; cases e)
  | bool _, null => isFalse (by intro e; cases e)
  | bool _, num _ => isFalse (by intro e; cases e)
  | bool _, str _ => isFalse (by intro e; cases e)
  | bool _, arr _ => isFalse (by intro e; cases e)
  | bool _, obj _ => isFalse (by intro e; cases e)
  | num _, undefined => isFalse (by intro e; cases e)
  | num _, null => isFalse (by intro e; cases e)
  | num _, bool _ => isFalse (by intro e; cases e)
  | num _, str _ => isFalse (by intro e; cases e)
  | num _, arr _ => isFalse (by intro e; cases e)
  | num _, obj _ => isFalse (by intro e; cases e)
  | str _, undefined => isFalse (by intro e; cases e)
  | str _, null => isFalse (by intro e; cases e)
  | str _, bool _ => isFalse (by intro e; cases e)
  | str _, num _ => isFalse (by intro e; cases e)
  | str _, arr _ => isFalse (by intro e; cases e)
  | str _, obj _ => isFalse (by intro e; cases e)
  | arr _, undefined => isFalse (by intro e; cases e)
  | arr _, null => isFalse (by intro e; cases e)
  | arr _, bool _ => isFalse (by intro e; cases e)
  | arr _, num _ => isFalse (by intro e; cases e)
  | arr _, str _ => isFalse (by intro e; cases e)
  | arr _, obj _ => isFalse (by intro e; cases e)
  | obj _, undefined => isFalse (by intro e; cases e)
  | obj _, null => isFalse (by intro e; cases e)
  | obj _, bool _ => isFalse (by intro e; cases e)
  | obj _, num _ => isFalse (by intro e; cases e)
  | obj _, str _ => isFalse (by intro e; cases e)
  | obj _, arr _ => isFalse (by intro e; cases e)
/-- Decision procedure for equality of array payloads. -/
def decEqItems : (a b : List Value) → Decidable (a = b)
  | [], [] => isTrue rfl
  | [], _ :: _ => isFalse (by intro e; cases e)
  | _ :: _, [] => isFalse (by intro e; cases e)
  | x :: xs, y :: ys =>
    match decEqValue x y, decEqItems xs ys with
    | isTrue h1, isTrue h2 => isTrue (by rw [h1, h2])
    | isFalse h1, _ => isFalse (by intro e; cases e; exact h1 rfl)
    | _, isFalse h2 => isFalse (by intro e; cases e; exact h2 rfl)
/-- Decision procedure for equality of object payloads. -/
def decEqEntries : (a b : List (String × Value)) → Decidable (a = b)
  | [], [] => isTrue rfl
  | [], _ :: _ => isFalse (by intro e; cases e)
  | _ :: _, [] => isFalse (by intro e; cases e)
  | (k, x) :: xs, (l, y) :: ys =>
    if hk : k = l then
      match decEqValue x y, decEqEntries xs ys with
      | isTrue h1, isTrue h2 => isTrue (by rw [hk, h1, h2])
      | isFalse h1, _ => isFalse (by intro e; cases e; exact h1 rfl)
      | _, isFalse h2 => isFalse (by intro e; cases e; exact h2 rfl)
    else isFalse (by intro e; cases e; exact hk rfl)
end

instance : DecidableEq Value := decEqValue

end Value

/-- Array-index reading of a property key: the number `n < 2^32 - 1` whose
canonical decimal spelling is the key, if there is one. Such keys are
enumerated first, in ascending numeric order. -/
def arrayIndex (k : String) : Option Nat :=
  if k.data.all Char.isDigit && !k.data.isEmpty then
    let n := k.data.foldl (fun acc c => 10 * acc + (c.toNat - 48)) 0
    if n < 4294967295 ∧ Nat.repr n = k then some n else none
  else none

/-- Own property lookup (`hasOwnProperty` together with the value): the value
of the last member with key `k`, `none` when the object has no such key. -/
def getKey (k : String) : Obj → Option Value
  | [] => none
  | (k', v) :: rest => (getKey k rest).or (if k' = k then some v else none)

/-- Test `Object.prototype.hasOwnProperty.call(o, k)`. -/
def hasKey (k : String) (o : Obj) : Bool := o.any (fun e => decide (e.1 = k))

/-- Property read `o.k` on an object: `undefined` when the key is absent. -/
def readProp (o : Obj) (k : String) : Value := (getKey k o).getD Value.undefined

/-- Place of a new array-index key `k` (with index `n`): after the array-index
keys below `n`, before everything else. -/
def insertIndexed (n : Nat) (k : String) (v : Value) : Obj → Obj
  | [] => [(k, v)]
  | e :: rest =>
    match arrayIndex e.1 with
    | some m => if m < n then e :: insertIndexed n k v rest else (k, v) :: e :: rest
    | none => (k, v) :: e :: rest

/-- Creation of a property the object does not have yet: an array-index key
goes to its numeric place, any other key to the end. -/
def defineNew (k : String) (v : Value) (o : Obj) : Obj :=
  match arrayIndex k with
  | some n => insertIndexed n k v o
  | none => o ++ [(k, v)]

/-- Definition of the own data property `k` with value `v`
(`CreateDataProperty`): an existing property keeps its place and takes the
new value (in a member list that repeats the key, every member with that
key does), a new property is created. It is also what an assignment
`o[k] = v` does when the key is not `__proto__`. -/
def defineProp (k : String) (v : Value) (o : Obj) : Obj :=
  if hasKey k o then o.map (fun e => if e.1 = k then (e.1, v) else e)
  else defineNew k v o

/-- Definition of every member of `src`, in order, on `target`: what object
spread does with one source, and how `JSON.parse` builds an object from a
member list. -/
def defineAll (src : Obj) (target : Obj) : Obj :=
  src.foldl (fun acc e => defineProp e.1 e.2 acc) target

/-- Index-keyed members of an array-like value, starting at index `i`. -/
def indexed : Nat → List Value → Obj
  | _, [] => []
  | i, v :: rest => (Nat.repr i, v) :: indexed (i + 1) rest

/-- Own enumerable properties that `Object.assign` and object spread copy from
a source value: the members of an object, the elements of an array under
their indices, the characters of a string under their indices (one entry per
character; a character outside the Basic Multilingual Plane is two code
units in JavaScript), nothing for `undefined`, `null`, numbers and booleans. -/
def ownProps : Value → Obj
  | Value.obj entries => entries
  | Value.arr items => indexed 0 items
  | Value.str s => indexed 0 (s.data.map (fun c => Value.str (String.singleton c)))
  | _ => []

/-- Property read `v.k` on an arbitrary value: a TypeError (`none`) on
`undefined` and `null`, otherwise the own property or `undefined`. Built-in
properties such as `length` are not modelled. -/
def getProp (v : Value) (k : String) : Option Value :=
  match v with
  | Value.undefined => none
  | Value.null => none
  | other => some (readProp (ownProps other) k)

/-! ## Objects with a prototype, and assignment -/

/-- The object `JSON.parse` builds from a member list. -/
def fromEntries (members : Obj) : Obj := defineAll members []

/-- Own enumerable properties of a value, as `for-in` and `Object.assign`
enumerate them: those of `ownProps`, read as an object. -/
def ownEntries (v : Value) : Obj := fromEntries (ownProps v)

/-- Prototype of an object: `Object.prototype` (where the accessor `__proto__`
lives; it has no enumerable property), no prototype at all, or an object or
array taken from parsed JSON, whose own prototype is the standard one. -/
inductive Proto where
  | standard
  | absent
  | value (v : Value)
  deriving DecidableEq

/-- An object under construction: its own enumerable properties and its prototype. -/
structure JsObject where
  own : Obj
  proto : Proto

/-- A fresh object literal. -/
def emptyObject : JsObject := { own := [], proto := Proto.standard }

/-- The object parsed from a member list. -/
def ofParsed (members : Obj) : JsObject :=
  { own := fromEntries members, proto := Proto.standard }

/-- The setter of `Object.prototype.__proto__`: an object, an array or `null`
becomes the prototype; any other value is ignored. -/
def protoSetter (x : Value) (o : JsObject) : JsObject :=
  match x with
  | Value.obj _ => { o with proto := Proto.value x }
  | Value.arr _ => { o with proto := Proto.value x }
  | Value.null => { o with proto := Proto.absent }
  | _ => o

/-- Whether a lookup of `__proto__` along the prototype chain ends at the
accessor of `Object.prototype`: not when there is no prototype, and not
when the prototype has an own data property of that name. -/
def reachesSetter : Proto → Bool
  | Proto.standard => true
  | Proto.absent => false
  | Proto.value v => !hasKey "__proto__" (ownProps v)

/-- Assignment `o[k] = x`. For the key `__proto__`, when the object has no own
property of that name and the chain reaches the accessor, the setter runs;
in every other case the own data property is set or created. -/
def setProp (k : String) (x : Value) (o : JsObject) : JsObject :=
  if k = "__proto__" ∧ hasKey k o.own = false ∧ reachesSetter o.proto = true then protoSetter x o
  else { o with own := defineProp k x o.own }

/-- Assignment of every member of `src`, in order, onto `target`: the loop
`for (p in src) target[p] = src[p]`, and one source of `Object.assign`. -/
def assignAll (src : Obj) (target : JsObject) : JsObject :=
  src.foldl (fun acc e => setProp e.1 e.2 acc) target

/-- Enumerable properties an object inherits from its prototype. -/
def inherited : Proto → Obj
  | Proto.value v => ownEntries v
  | _ => []

/-- The properties `for (p in o)` visits, each with the value `o[p]`: the own
ones, then the inherited ones no own property hides. -/
def enumerate (o : JsObject) : Obj :=
  o.own ++ (inherited o.proto).filter (fun e => !hasKey e.1 o.own)

/-! ## Ramda combinators used by the manifest merge -/

/-- Ramda `merge(l, r)`, that is `Object.assign` of `l` and then `r` onto a fresh
empty object; `l` and `r` are given by their own enumerable properties. -/
def merge (l r : Obj) : JsObject :=
  assignAll r (assignAll l emptyObject)

/-- Ramda `assoc(prop, val, obj)`: a shallow copy of `obj` (`for (p in obj)
result[p] = obj[p]`) followed by `result[prop] = val`. -/
def assoc (k : String) (val : Value) (o : JsObject) : JsObject :=
  setProp k val (assignAll (enumerate o) emptyObject)

/-- Ramda `omit(names, obj)`: a copy of `obj` (`for (prop in obj)
result[prop] = obj[prop]`) without the listed keys (`omit` is a reserved
word here, hence the longer name). -/
def omitKeys (names : List String) (o : JsObject) : JsObject :=
  assignAll ((enumerate o).filter (fun e => decide (e.1 ∉ names))) emptyObject

/-- The three keys of a manifest that are merged entry by entry. -/
def specialKeys : List String := ["dependencies", "devDependencies", "scripts"]

/-- The value the merge gives a special key: `merge(currentPackage.k,
newPackageJson.k)`, as the object that is written out (its own properties). -/
def mergedEntries (currentPackage newPackageJson : Obj) (k : String) : Obj :=
  (merge (ownEntries (readProp currentPackage k)) (ownEntries (readProp newPackageJson k))).own

/-- The first three stages of the `pipe` of src/boilerplate.js, lines 196-205,
applied to the base manifest:
```
assoc('dependencies', merge(currentPackage.dependencies, newPackageJson.dependencies)),
assoc('devDependencies', merge(currentPackage.devDependencies, newPackageJson.devDependencies)),
assoc('scripts', merge(currentPackage.scripts, newPackageJson.scripts)),
``` -/
def withSpecialKeys (currentPackage newPackageJson : Obj) : JsObject :=
  let step1 := assoc "dependencies"
    (Value.obj (mergedEntries currentPackage newPackageJson "dependencies"))
    (ofParsed currentPackage)
  let step2 := assoc "devDependencies"
    (Value.obj (mergedEntries currentPackage newPackageJson "devDependencies"))
    step1
  assoc "scripts"
    (Value.obj (mergedEntries currentPackage newPackageJson "scripts"))
    step2

/-- The fragment without the three special keys, line 208:
`omit(['dependencies', 'devDependencies', 'scripts'], newPackageJson)`. -/
def otherKeys (newPackageJson : Obj) : JsObject :=
  omitKeys ["dependencies", "devDependencies", "scripts"] (ofParsed newPackageJson)

/-- The merge of src/boilerplate.js, lines 196-210: `currentPackage` is the
package.json written by `react-native init` (the base manifest),
`newPackageJson` the parsed rendering of `package.json.ejs` (the fragment).
The last stage of the `pipe`, `merge(__, omit([...], newPackageJson))`, is
applied to the result of the first three. The result is what
`filesystem.write('package.json', ...)` serialises: the own properties of
the merged object. -/
def mergePackageJsons (currentPackage newPackageJson : Obj) : Obj :=
  (merge (withSpecialKeys currentPackage newPackageJson).own (otherKeys newPackageJson).own).own

/-! ## The entity command (src/src/entity/index.js) -/

/-- What a path of the working tree holds: a directory, or a file together
with its content read as JSON (`none` when the text is not JSON). -/
inductive Node where
  | dir
  | file (content : Option Value)
  deriving DecidableEq

/-- File system as the command sees it: what each path holds, if anything. -/
abbrev World := String → Option Node

/-- Check `fs.existsSync(path)`. -/
def existsSync (w : World) (path : String) : Bool := (w path).isSome

/-- Read `fs.readJson(path)`: the parsed content, or a rejection (`none`) when
the path is not a file holding JSON. -/
def readJson (w : World) (path : String) : Option Value :=
  match w path with
  | some (Node.file (some v)) => some v
  | _ => none

/-- Effect of `fs.mkdirSync(path)`. -/
def mkdirSync (w : World) (path : String) : World :=
  fun p => if p = path then some Node.dir else w p

/-- Directories above a path: for every slash of the path, the text before
it (the empty text before a leading slash left out). -/
def ancestorsFrom : List Char → List Char → List String
  | _, [] => []
  | seen, c :: rest =>
    if c = '/' then
      if seen.isEmpty then ancestorsFrom (seen ++ [c]) rest
      else String.mk seen :: ancestorsFrom (seen ++ [c]) rest
    else ancestorsFrom (seen ++ [c]) rest

/-- Directories above a path, outermost first. -/
def ancestors (path : String) : List String := ancestorsFrom [] path.data

/-- Whether a path holds a regular file. -/
def isFile (w : World) (path : String) : Bool :=
  match w path with
  | some (Node.file _) => true
  | _ => false

/-- Whether a path holds a directory. -/
def isDir (w : World) (path : String) : Bool :=
  match w path with
  | some Node.dir => true
  | _ => false

/-- Effect of `fs.copy(src, dest)` (fs-extra). It rejects (`none`) when `src`
does not exist, when a regular file stands where a directory above `dest`
is needed (ENOTDIR), and when one of `src` and `dest` is a directory and
the other a regular file. Otherwise the missing directories above `dest`
are created and `dest` holds what `src` holds. For a directory source the
entries below it, which are copied as well, are not followed. -/
def copy (w : World) (src dest : String) : Option World :=
  match w src with
  | none => none
  | some node =>
    if (ancestors dest).any (fun a => isFile w a) then none
    else if (isDir w dest && isFile w src) || (isFile w dest && isDir w src) then none
    else some (fun p =>
      if p = dest then some node
      else if p ∈ ancestors dest ∧ w p = none then some Node.dir
      else w p)

/-- Effect of `fs.writeJson(path, value, ...)`. -/
def writeJson (w : World) (path : String) (value : Value) : World :=
  fun p => if p = path then some (Node.file (some value)) else w p

/-- The `strings` toolbox of the command context (gluegun), of which the
command uses `isBlank` and `pascalCase`; both are applied to
`parameters.first`, which is `none` when no name was given. -/
structure Strings where
  isBlank : Option String → Bool
  pascalCase : Option String → String

/-- The command line as the context presents it: `parameters.first` and
`parameters.options['jh-dir']` (`none` when the option is not given; option
values are strings). -/
structure Parameters where
  first : Option String
  jhDir : Option String

/-- The part of the gluegun context the command reads. -/
structure Context where
  parameters : Parameters
  strings : Strings
  brand : String

/-- The operations the command performs on its collaborators, in order. -/
inductive Event where
  | info (msg : String)
  | success (msg : String)
  | error (msg : String)
  | readJson (path : String)
  | existsSync (path : String)
  | ask (default : Value)
  | mkdirSync (path : String)
  | copy (src dest : String)
  | writeJson (path : String) (value : Value)
  | generateFiles (name : String) (igniteConfig : Value)
  | trackEntityOptions
  deriving DecidableEq

/-- How a run of the command ends. -/
inductive Outcome where
  | usageShown
  | notFound
  | generated
  | threw
  | awaitingAnswer
  deriving DecidableEq

/-- A run of the command: the operations performed, the working tree as the
locator leaves it (the files written by `generateFiles` are not modelled),
and how the run ends. -/
structure Run where
  trace : List Event
  world : World
  outcome : Outcome

/-- The replacement `s.replace(/\/$/, '')`: one trailing slash removed. -/
def stripTrailingSlash (s : String) : String :=
  match s.data.reverse with
  | '/' :: rest => String.mk rest.reverse
  | _ => s

/-- The path `ignite/ignite.json` of the persisted configuration. -/
def igniteConfigPath : String := "ignite/ignite.json"

/-- The file name of the entity: the template string with `this.name` and `.json`. -/
def entityFileName (name : String) : String := name ++ ".json"

/-- The local cache file of the entity: `.jhipster/` followed by the file name. -/
def localEntityFilePath (name : String) : String := ".jhipster/" ++ entityFileName name

/-- The path looked up under the `--jh-dir` override: the flag, a slash and
the local cache path. -/
def overridePath (jhDirectoryFlag name : String) : String :=
  jhDirectoryFlag ++ "/" ++ localEntityFilePath name

/-- The path looked up for an answer of the prompt, `fullEntityFilePath` in the
loop: the directory, `/.jhipster/` and the file name. -/
def promptedPath (jhipsterDirectory name : String) : String :=
  jhipsterDirectory ++ "/.jhipster/" ++ entityFileName name

/-- Assignment `config.k = v` as seen by a later `writeJson`: on an object
parsed from JSON the property is assigned; on an array or a primitive the
serialised value is unchanged (the module is not in strict mode). -/
def assignProp (config : Value) (k : String) (v : Value) : Value :=
  match config with
  | Value.obj entries =>
    Value.obj (setProp k v { own := entries, proto := Proto.standard }).own
  | other => other

/-- The loop `while (true)` of lines 50-62, run against the answers typed at
the prompt, in order. Each round asks, strips the trailing slash, looks for
the entity file and either breaks or reports the miss and asks again. The
result is the operations performed and, when an answer was good, the values
of `jhipsterDirectory` and `fullEntityFilePath` at the `break`; when the
answers run out the command is left waiting in `prompt.ask`. -/
def askUntilFound (w : World) (default : Value) (name : String) :
    List String → List Event × Option (String × String)
  | [] => ([Event.ask default], none)
  | answer :: later =>
    let jhipsterDirectory := stripTrailingSlash answer
    let fullEntityFilePath := promptedPath jhipsterDirectory name
    let round := [Event.ask default, Event.info ("Looking for " ++ fullEntityFilePath),
      Event.existsSync fullEntityFilePath]
    if existsSync w fullEntityFilePath then
      (round ++ [Event.success ("Found entity file at " ++ fullEntityFilePath)],
        some (jhipsterDirectory, fullEntityFilePath))
    else
      let next := askUntilFound w default name later
      (round ++ [Event.error "Could not find entity file, please try again."] ++ next.1,
        next.2)

/-- The tail of the command, lines 77-80: file generation, usage tracking and
the closing message. -/
def finish (trace : List Event) (w : World) (name : String) (igniteConfig : Value) : Run :=
  { trace := trace ++ [Event.generateFiles name igniteConfig, Event.trackEntityOptions,
      Event.success "Entity successfully generated!"],
    world := w,
    outcome := Outcome.generated }

/-- The exported function of src/src/entity/index.js, run in the working tree
`w` with the prompt answers `answers`. -/
def entity (ctx : Context) (w : World) (answers : List String) : Run :=
  -- flags: parameters.options['jh-dir'] || ''
  let jhDirectoryFlag := ctx.parameters.jhDir.getD ""
  -- validation
  if ctx.strings.isBlank ctx.parameters.first then
    { trace := [Event.info (ctx.brand ++ " generate entity <name>\n"),
        Event.info "A name is required."],
      world := w, outcome := Outcome.usageShown }
  else
    -- load the ignite config and set the default jhipster directory
    match readJson w igniteConfigPath with
    | none => { trace := [Event.readJson igniteConfigPath], world := w, outcome := Outcome.threw }
    | some igniteConfig =>
      let name := ctx.strings.pascalCase ctx.parameters.first
      match getProp igniteConfig "jhipsterDirectory" with
      | none => { trace := [Event.readJson igniteConfigPath], world := w, outcome := Outcome.threw }
      | some default =>
        let localPath := localEntityFilePath name
        let start := [Event.readJson igniteConfigPath, Event.existsSync localPath]
        -- if the file exists, skip loading it
        if existsSync w localPath then
          finish (start ++ [Event.success "Found the entity config locally in .jhipster"])
            w name igniteConfig
        else if jhDirectoryFlag ≠ "" then
          let flagPath := overridePath jhDirectoryFlag name
          if !existsSync w flagPath then
            { trace := start ++ [Event.existsSync flagPath,
                Event.error ("No entity configuration file found at " ++ flagPath)],
              world := w, outcome := Outcome.notFound }
          else
            -- jhipsterDirectory and fullEntityFilePath are assigned here and not used again
            finish (start ++ [Event.existsSync flagPath,
                Event.success ("Found the entity config at " ++ flagPath)])
              w name igniteConfig
        else
          -- prompt the user until an entity configuration file is found
          match askUntilFound w default name answers with
          | (asked, none) =>
            { trace := start ++ asked, world := w, outcome := Outcome.awaitingAnswer }
          | (asked, some (jhipsterDirectory, fullEntityFilePath)) =>
            let made := if existsSync w ".jhipster" then [] else [Event.mkdirSync ".jhipster"]
            let w1 := if existsSync w ".jhipster" then w else mkdirSync w ".jhipster"
            let upTo := start ++ asked ++ [Event.existsSync ".jhipster"] ++ made ++
              [Event.copy fullEntityFilePath localPath]
            match copy w1 fullEntityFilePath localPath with
            | none => { trace := upTo, world := w1, outcome := Outcome.threw }
            | some w2 =>
              -- save the jhipster app directory as the new jhipsterDirectory default
              let saved := assignProp igniteConfig "jhipsterDirectory"
                (Value.str jhipsterDirectory)
              finish (upTo ++ [Event.success "Entity config saved to your app\x27s .jhipster folder.",
                  Event.writeJson igniteConfigPath saved])
                (writeJson w2 igniteConfigPath saved) name saved

/-- Sample `strings` toolbox for concrete runs. The blank test is the one of
gluegun (not a string, or nothing but white space); the case conversion is
the identity, which is what the conversion to PascalCase does to a name
already in that form, such as `Foo` or `FieldTestEntity`. -/
def sampleStrings : Strings :=
  { isBlank := fun v =>
      match v with
      | none => true
      | some s => s.data.all Char.isWhitespace,
    pascalCase := fun v => v.getD "" }

/-! ## setupVariables and loadVariables (src/lib/setup-variables.js) -/

/-- The fields of `this.context` the two functions assign. -/
structure GenContext where
  reactNativeAppName : Value
  detox : Value
  skipCommitHook : Value
  packageVersion : Value
  authenticationType : Value

/-- The generator state the two functions read and write: `options.fromJdl`
(its truthiness), `options.skipCommitHook`, `existingProject`,
`directoryPath`, `context`, and the stored configuration returned by
`config.getAll()`. -/
structure Generator where
  fromJdl : Bool
  skipCommitHook : Value
  existingProject : Bool
  directoryPath : Value
  context : GenContext
  config : Obj

/-- The two lodash functions `setupVariables` calls through `this._`. -/
structure Lodash where
  camelCase : Value → String
  upperFirst : String → String

/-- The function `loadVariables`: `yoRcExists` is `fse.existsSync('.yo-rc.json')`.
A TypeError (`none`) when the stored `reactNative` entry is `null`. -/
def loadVariables (yoRcExists : Bool) (g : Generator) : Option Generator :=
  let g1 := { g with existingProject := yoRcExists }
  if yoRcExists then
    let jhipsterConfig := g1.config
    if hasKey "baseName" jhipsterConfig then
      let g2 := { g1 with existingProject := true }
      if hasKey "reactNative" jhipsterConfig then
        match getProp (readProp jhipsterConfig "reactNative") "reactNativeAppName",
          getProp (readProp jhipsterConfig "reactNative") "detox" with
        | some appName, some detox =>
          let context1 := { g2.context with reactNativeAppName := appName, detox := detox }
          some { g2 with context := context1 }
        | _, _ => none
      else some g2
    else some g1
  else some g1

/-- Lines 20-34 of `setupVariables`: the JHipster configuration and the context
it leaves. From JDL or in an existing project the stored configuration is
used and the React Native defaults are set; otherwise the configuration is
the `generator-jhipster` entry of `readJSON(directoryPath/.yo-rc.json)`,
given here as `yoRc` (`none` when the read throws). A failure inside the
`try` ends in `this.error` (`none`). -/
def loadJHipsterConfig (lodash : Lodash) (yoRc : Option Value) (g : Generator) :
    Option (Value × GenContext) :=
  if g.fromJdl || g.existingProject then
    let jhipsterConfig := g.config
    some (Value.obj jhipsterConfig,
      { g.context with
        reactNativeAppName :=
          Value.str (lodash.upperFirst (lodash.camelCase (readProp jhipsterConfig "baseName"))),
        detox := Value.bool true })
  else
    match yoRc with
    | none => none
    | some rc =>
      match getProp rc "generator-jhipster" with
      | none => none
      | some jhipsterConfig => some (jhipsterConfig, g.context)

/-- The freshly computed `reactNative` block of the object literal of lines 41-45. -/
def reactNativeBlock (context : GenContext) (directoryPath : Value) : Value :=
  Value.obj [("reactNativeAppName", context.reactNativeAppName), ("detox", context.detox),
    ("backend", directoryPath)]

/-- What `setupVariables` leaves: the context and the object passed to
`this.config.set`. -/
structure SetupResult where
  context : GenContext
  configSet : Obj

/-- The function `setupVariables`; `packageVersion` is `packagejs.version`. The
read `jhipsterConfig.authenticationType` is a TypeError (`none`) on
`undefined` and `null`. The argument of `config.set` is the object literal
of lines 40-47: the `reactNative` block first, then the spread of
`jhipsterConfig`, every own property of it assigned over what is there. -/
def setupVariables (lodash : Lodash) (packageVersion : Value) (yoRc : Option Value)
    (g : Generator) : Option SetupResult :=
  match loadJHipsterConfig lodash yoRc g with
  | none => none
  | some (jhipsterConfig, context) =>
    match getProp jhipsterConfig "authenticationType" with
    | none => none
    | some authenticationType =>
      let context1 := { context with
        skipCommitHook := g.skipCommitHook,
        packageVersion := packageVersion,
        authenticationType := authenticationType }
      some
        { context := context1,
          configSet := defineAll (ownProps jhipsterConfig)
            [("reactNative", reactNativeBlock context1 g.directoryPath)] }

/-! ## Well-formed objects -/

/-- Enumeration order of two properties of one object: the keys differ, an
array-index key comes before any other key, and two array-index keys come
in ascending numeric order. -/
def keyBefore (e1 e2 : String × Value) : Prop :=
  e1.1 ≠ e2.1 ∧
    match arrayIndex e1.1, arrayIndex e2.1 with
    | some m, some n => m < n
    | some _, none => True
    | none, some _ => False
    | none, none => True

/-- Well-formed objects: the property lists a JavaScript object can have,
that is unique keys in enumeration order. -/
def WellFormed (o : Obj) : Prop := o.Pairwise keyBefore

/-! ## Sample data for concrete runs -/

/-- The base manifest of the worked example of the specification. -/
def specBase : Obj :=
  [("dependencies", Value.obj [("a", Value.str "1")]),
   ("scripts", Value.obj [("lint", Value.str "x")]),
   ("name", Value.str "p")]

/-- The fragment of the worked example of the specification. -/
def specFragment : Obj :=
  [("dependencies", Value.obj [("a", Value.str "2"), ("b", Value.str "1")]),
   ("scripts", Value.obj [("test", Value.str "y")]),
   ("version", Value.str "1.0")]

/-- A project configuration as `ignite/ignite.json` holds it. -/
def sampleConfig : Obj :=
  [("jhipsterDirectory", Value.str "../backend"), ("generators", Value.obj [])]

/-- The entity definition stored in the backend directory `../test`. -/
def sampleEntity : Value := Value.obj [("fields", Value.arr []), ("relationships", Value.arr [])]

/-- A freshly generated app: the project configuration, and an entity
definition `Foo` in the backend directory `../test`; no local cache. -/
def sampleWorld : World := fun p =>
  if p = "ignite/ignite.json" then some (Node.file (some (Value.obj sampleConfig)))
  else if p = "../test/.jhipster/Foo.json" then some (Node.file (some sampleEntity))
  else none

/-- The same app once `Foo` is in the local cache. -/
def cachedWorld : World := fun p =>
  if p = ".jhipster" then some Node.dir
  else if p = ".jhipster/Foo.json" then some (Node.file (some sampleEntity))
  else sampleWorld p

/-- The sample app with a regular file named `.jhipster` in the project root. -/
def blockedWorld : World := fun p =>
  if p = ".jhipster" then some (Node.file none) else sampleWorld p

/-- The context of `ignite generate entity <first> [--jh-dir=<jhDir>]`. -/
def sampleContext (first jhDir : Option String) : Context :=
  { parameters := { first := first, jhDir := jhDir }, strings := sampleStrings, brand := "ignite" }

/-- Sample lodash functions for concrete runs: `upperFirst` on the first
character, and `camelCase` as it acts on a single lower-case word. -/
def sampleLodash : Lodash :=
  { camelCase := fun v =>
      match v with
      | Value.str s => s
      | _ => "",
    upperFirst := fun s =>
      match s.data with
      | c :: cs => String.mk (c.toUpper :: cs)
      | [] => "" }

/-- A stored JHipster configuration that already has a `reactNative` entry. -/
def sampleStored : Obj :=
  [("baseName", Value.str "jhipster"),
   ("authenticationType", Value.str "jwt"),
   ("reactNative", Value.obj [("reactNativeAppName", Value.str "Mobile"),
     ("detox", Value.bool false)])]

/-- A generator in an existing project whose stored configuration is `sampleStored`. -/
def sampleGenerator : Generator :=
  { fromJdl := false,
    skipCommitHook := Value.undefined,
    existingProject := true,
    directoryPath := Value.str "../backend",
    context :=
      { reactNativeAppName := Value.str "Mobile", detox := Value.bool false,
        skipCommitHook := Value.undefined, packageVersion := Value.undefined,
        authenticationType := Value.undefined },
    config := sampleStored }

/-! # Proofs -/

/-! ## Lookup lemmas -/

theorem getKey_nil (k : String) : getKey k [] = none := rfl

theorem getKey_cons (k k' : String) (v : Value) (rest : Obj) :
    getKey k ((k', v) :: rest) = (getKey k rest).or (if k' = k then some v else none) := rfl

theorem getKey_append (k : String) (a b : Obj) :
    getKey k (a ++ b) = (getKey k b).or (getKey k a) := by
  induction a with
  | nil => simp [getKey]
  | cons e a ih =>
    obtain ⟨k', v⟩ := e
    rw [List.cons_append, getKey_cons, getKey_cons, ih]
    cases getKey k b <;> simp

theorem getKey_eq_none_iff (k : String) (o : Obj) :
    getKey k o = none ↔ hasKey k o = false := by
  induction o with
  | nil => simp [getKey, hasKey]
  | cons e o ih =>
    obtain ⟨k', v⟩ := e
    simp only [getKey, Option.or_eq_none, ih, hasKey, List.any_cons, Bool.or_eq_false_iff,
      decide_eq_false_iff_not]
    constructor
    · rintro ⟨h1, h2⟩
      refine ⟨?_, h1⟩
      intro hk
      simp [hk] at h2
    · rintro ⟨h1, h2⟩
      refine ⟨h2, ?_⟩
      simp [h1]

theorem hasKey_iff_isSome (k : String) (o : Obj) :
    hasKey k o = true ↔ (getKey k o).isSome = true := by
  have h := getKey_eq_none_iff k o
  cases hk : getKey k o with
  | none => simp [h.mp hk]
  | some v =>
    cases hh : hasKey k o with
    | false => rw [h.mpr hh] at hk; cases hk
    | true => simp

theorem hasKey_iff_mem (k : String) (o : Obj) :
    hasKey k o = true ↔ k ∈ o.map Prod.fst := by
  simp [hasKey, List.any_eq_true]

theorem getKey_replace (k k' : String) (v : Value) (o : Obj) :
    getKey k (o.map (fun e => if e.1 = k' then (e.1, v) else e)) =
      if k = k' then (if hasKey k' o then some v else none) else getKey k o := by
  induction o with
  | nil => simp [getKey, hasKey]
  | cons e o ih =>
    obtain ⟨k1, v1⟩ := e
    have hh : hasKey k' ((k1, v1) :: o) = (decide (k1 = k') || hasKey k' o) := rfl
    rw [List.map_cons, hh]
    by_cases h1 : k1 = k'
    · have hf : (if (k1, v1).1 = k' then ((k1, v1).1, v) else (k1, v1)) = (k1, v) :=
        if_pos h1
      rw [hf, getKey_cons, getKey_cons, ih]
      by_cases hk : k = k'
      · have hk1 : k1 = k := by rw [h1, hk]
        cases hasKey k' o <;> simp [hk, h1]
      · have hk1 : ¬ k1 = k := fun h => hk (by rw [← h, h1])
        simp [hk, hk1]
    · have hf : (if (k1, v1).1 = k' then ((k1, v1).1, v) else (k1, v1)) = (k1, v1) :=
        if_neg h1
      rw [hf, getKey_cons, getKey_cons, ih]
      by_cases hk : k = k'
      · have hk1 : ¬ k1 = k := fun h => h1 (by rw [h, hk])
        simp [hk, h1]
      · simp [hk, h1]

theorem insertIndexed_split (n : Nat) (k : String) (v : Value) (o : Obj) :
    ∃ a b, o = a ++ b ∧ insertIndexed n k v o = a ++ (k, v) :: b := by
  induction o with
  | nil => exact ⟨[], [], rfl, rfl⟩
  | cons e o ih =>
    simp only [insertIndexed]
    cases hm : arrayIndex e.1 with
    | none => exact ⟨[], e :: o, rfl, rfl⟩
    | some m =>
      simp only
      by_cases hlt : m < n
      · obtain ⟨a, b, h1, h2⟩ := ih
        refine ⟨e :: a, b, ?_, ?_⟩
        · rw [h1]; rfl
        · simp [hlt, h2]
      · exact ⟨[], e :: o, rfl, by simp [hlt]⟩

theorem defineNew_split (k : String) (v : Value) (o : Obj) :
    ∃ a b, o = a ++ b ∧ defineNew k v o = a ++ (k, v) :: b := by
  unfold defineNew
  cases arrayIndex k with
  | none => exact ⟨o, [], by simp, rfl⟩
  | some n => exact insertIndexed_split n k v o

theorem getKey_defineNew (k k' : String) (v : Value) (o : Obj) (h : hasKey k' o = false) :
    getKey k (defineNew k' v o) = if k = k' then some v else getKey k o := by
  obtain ⟨a, b, h1, h2⟩ := defineNew_split k' v o
  rw [h2]
  have hcons : (a ++ (k', v) :: b) = (a ++ [(k', v)]) ++ b := by simp
  rw [hcons, getKey_append, getKey_append]
  by_cases hk : k = k'
  · subst hk
    have hb : getKey k b = none := by
      have := (getKey_eq_none_iff k o).mpr h
      rw [h1, getKey_append, Option.or_eq_none] at this
      exact this.1
    simp [hb, getKey]
  · have : ¬ k' = k := fun h => hk h.symm
    rw [h1, getKey_append]
    simp [getKey, this, hk]

theorem getKey_defineProp (k k' : String) (v : Value) (o : Obj) :
    getKey k (defineProp k' v o) = if k = k' then some v else getKey k o := by
  unfold defineProp
  cases h : hasKey k' o with
  | true => simp [getKey_replace, h]
  | false => simp [getKey_defineNew k k' v o h]

theorem getKey_defineAll (k : String) (src target : Obj) :
    getKey k (defineAll src target) = (getKey k src).or (getKey k target) := by
  induction src generalizing target with
  | nil => simp [defineAll, getKey]
  | cons e src ih =>
    obtain ⟨k', v⟩ := e
    have h : defineAll ((k', v) :: src) target = defineAll src (defineProp k' v target) := rfl
    rw [h, ih, getKey_defineProp, getKey_cons]
    cases getKey k src with
    | some w => simp
    | none =>
      by_cases hk : k = k'
      · subst hk; simp
      · have : ¬ k' = k := fun h => hk h.symm
        simp [hk, this]

theorem getKey_filter (k : String) (p : String → Bool) (o : Obj) :
    getKey k (o.filter (fun e => p e.1)) = if p k then getKey k o else none := by
  induction o with
  | nil => simp [getKey]
  | cons e o ih =>
    obtain ⟨k', v⟩ := e
    rw [List.filter_cons]
    cases hp : p k' with
    | true =>
      simp only [if_true, getKey_cons, ih]
      by_cases hk : k' = k
      · subst hk; simp [hp]
      · cases hpk : p k <;> simp [hk]
    | false =>
      simp only [Bool.false_eq_true, if_false, getKey_cons, ih]
      by_cases hk : k' = k
      · subst hk; simp [hp]
      · cases hpk : p k <;> simp [hk]

/-! ## Well-formedness of the objects the model builds -/

theorem arrayIndex_repr (a : String) (n : Nat) (ha : arrayIndex a = some n) :
    Nat.repr n = a := by
  unfold arrayIndex at ha
  split at ha
  · simp only at ha
    split at ha
    · rename_i h
      simp only [Option.some.injEq] at ha
      rw [← ha]
      exact h.2
    · cases ha
  · cases ha

theorem arrayIndex_inj (a b : String) (n : Nat) (ha : arrayIndex a = some n)
    (hb : arrayIndex b = some n) : a = b := by
  rw [← arrayIndex_repr a n ha, ← arrayIndex_repr b n hb]

theorem hasKey_false_iff (k : String) (o : Obj) :
    hasKey k o = false ↔ ∀ e ∈ o, e.1 ≠ k := by
  simp [hasKey]

theorem wellFormed_nil : WellFormed [] := List.Pairwise.nil

theorem wellFormed_replace (k : String) (v : Value) (o : Obj) (h : WellFormed o) :
    WellFormed (o.map (fun e => if e.1 = k then (e.1, v) else e)) := by
  unfold WellFormed at h ⊢
  refine List.Pairwise.map _ ?_ h
  intro a b hab
  have key : ∀ e : String × Value, (if e.1 = k then (e.1, v) else e).1 = e.1 := by
    intro e; by_cases he : e.1 = k <;> simp [he]
  unfold keyBefore at hab ⊢
  rw [key a, key b]
  exact hab

theorem mem_insertIndexed (n : Nat) (k : String) (v : Value) (o : Obj) (x : String × Value) :
    x ∈ insertIndexed n k v o ↔ x = (k, v) ∨ x ∈ o := by
  obtain ⟨a, b, h1, h2⟩ := insertIndexed_split n k v o
  rw [h2, h1]
  simp only [List.mem_append, List.mem_cons]
  tauto

theorem wellFormed_insertIndexed (n : Nat) (k : String) (v : Value) (o : Obj)
    (h : WellFormed o) (hk : hasKey k o = false) (hn : arrayIndex k = some n) :
    WellFormed (insertIndexed n k v o) := by
  induction o with
  | nil => exact List.pairwise_singleton _ _
  | cons e o ih =>
    have hne : ∀ x ∈ e :: o, x.1 ≠ k := (hasKey_false_iff k (e :: o)).mp hk
    have hko : hasKey k o = false :=
      (hasKey_false_iff k o).mpr (fun x hx => hne x (List.mem_cons_of_mem _ hx))
    have he : e.1 ≠ k := hne e (List.mem_cons_self _ _)
    unfold WellFormed at h
    rw [List.pairwise_cons] at h
    obtain ⟨hall, ho⟩ := h
    have front : ∀ x ∈ e :: o, (∃ m, arrayIndex e.1 = some m ∧ n ≤ m) ∨ arrayIndex e.1 = none →
        keyBefore (k, v) x := by
      intro x hx hcase
      refine ⟨fun hkx => hne x hx hkx.symm, ?_⟩
      show (match arrayIndex k, arrayIndex x.1 with
        | some m, some n => m < n
        | some _, none => True
        | none, some _ => False
        | none, none => True)
      rw [hn]
      rcases List.mem_cons.mp hx with hxe | hxo
      · subst hxe
        rcases hcase with ⟨m, hm, hle⟩ | hnone
        · rw [hm]
          show n < m
          rcases Nat.lt_or_eq_of_le hle with hlt | heq
          · exact hlt
          · subst heq
            exact absurd (arrayIndex_inj _ _ _ hm hn) he
        · rw [hnone]; trivial
      · have hex := (hall x hxo).2
        rcases hcase with ⟨m, hm, hle⟩ | hnone
        · rw [hm] at hex
          cases hx1 : arrayIndex x.1 with
          | none => trivial
          | some m' =>
            rw [hx1] at hex
            show n < m'
            exact Nat.lt_of_le_of_lt hle hex
        · rw [hnone] at hex
          cases hx1 : arrayIndex x.1 with
          | none => trivial
          | some m' => rw [hx1] at hex; exact absurd hex (by simp)
    simp only [insertIndexed]
    cases hm : arrayIndex e.1 with
    | none =>
      simp only
      exact List.Pairwise.cons (fun x hx => front x hx (Or.inr hm))
        (List.Pairwise.cons hall ho)
    | some m =>
      simp only
      by_cases hlt : m < n
      · rw [if_pos hlt]
        refine List.Pairwise.cons ?_ (ih ho hko)
        intro x hx
        rcases (mem_insertIndexed n k v o x).mp hx with hxk | hxo
        · subst hxk
          refine ⟨he, ?_⟩
          show (match arrayIndex e.1, arrayIndex k with
            | some m, some n => m < n
            | some _, none => True
            | none, some _ => False
            | none, none => True)
          rw [hm, hn]
          exact hlt
        · exact hall x hxo
      · rw [if_neg hlt]
        exact List.Pairwise.cons (fun x hx => front x hx (Or.inl ⟨m, hm, Nat.le_of_not_lt hlt⟩))
          (List.Pairwise.cons hall ho)

theorem wellFormed_defineNew (k : String) (v : Value) (o : Obj)
    (h : WellFormed o) (hk : hasKey k o = false) : WellFormed (defineNew k v o) := by
  unfold defineNew
  cases hn : arrayIndex k with
  | some n => exact wellFormed_insertIndexed n k v o h hk hn
  | none =>
    simp only
    unfold WellFormed at h ⊢
    rw [List.pairwise_append]
    refine ⟨h, List.pairwise_singleton _ _, ?_⟩
    intro a ha b hb
    rw [List.mem_singleton] at hb
    subst hb
    refine ⟨(hasKey_false_iff k o).mp hk a ha, ?_⟩
    show (match arrayIndex a.1, arrayIndex k with
      | some m, some n => m < n
      | some _, none => True
      | none, some _ => False
      | none, none => True)
    rw [hn]
    cases arrayIndex a.1 <;> trivial

theorem wellFormed_defineProp (k : String) (v : Value) (o : Obj) (h : WellFormed o) :
    WellFormed (defineProp k v o) := by
  unfold defineProp
  cases hk : hasKey k o with
  | true => simpa using wellFormed_replace k v o h
  | false => simpa using wellFormed_defineNew k v o h hk

theorem wellFormed_defineAll (src target : Obj) (h : WellFormed target) :
    WellFormed (defineAll src target) := by
  induction src generalizing target with
  | nil => exact h
  | cons e src ih => exact ih _ (wellFormed_defineProp e.1 e.2 target h)


/-! ## Copying and re-assigning well-formed objects -/

theorem insertIndexed_last (n : Nat) (k : String) (v : Value) (o : Obj)
    (h : ∀ a ∈ o, ∃ m, arrayIndex a.1 = some m ∧ m < n) :
    insertIndexed n k v o = o ++ [(k, v)] := by
  induction o with
  | nil => rfl
  | cons e o ih =>
    obtain ⟨m, hm, hlt⟩ := h e (List.mem_cons_self _ _)
    simp only [insertIndexed, hm, if_pos hlt, List.cons_append]
    rw [ih (fun a ha => h a (List.mem_cons_of_mem _ ha))]

theorem defineProp_last (acc : Obj) (e : String × Value) (h : WellFormed (acc ++ [e])) :
    defineProp e.1 e.2 acc = acc ++ [e] := by
  unfold WellFormed at h
  rw [List.pairwise_append] at h
  obtain ⟨_, _, hall⟩ := h
  have hb : ∀ a ∈ acc, keyBefore a e := fun a ha => hall a ha e (List.mem_singleton.mpr rfl)
  have hk : hasKey e.1 acc = false := (hasKey_false_iff e.1 acc).mpr (fun a ha => (hb a ha).1)
  unfold defineProp
  rw [hk]
  simp only [Bool.false_eq_true, if_false]
  unfold defineNew
  cases hn : arrayIndex e.1 with
  | none => rfl
  | some n =>
    simp only
    apply insertIndexed_last
    intro a ha
    have h2 := (hb a ha).2
    rw [hn] at h2
    cases hm : arrayIndex a.1 with
    | none => rw [hm] at h2; exact absurd h2 (by simp)
    | some m => rw [hm] at h2; exact ⟨m, rfl, h2⟩

theorem defineAll_append (l acc : Obj) (h : WellFormed (acc ++ l)) :
    defineAll l acc = acc ++ l := by
  induction l generalizing acc with
  | nil => simp [defineAll]
  | cons e l ih =>
    have hsplit : acc ++ e :: l = (acc ++ [e]) ++ l := by simp
    have hpre : WellFormed (acc ++ [e]) := by
      unfold WellFormed at h ⊢
      rw [hsplit, List.pairwise_append] at h
      exact h.1
    have hstep : defineAll (e :: l) acc = defineAll l (defineProp e.1 e.2 acc) := rfl
    rw [hstep, defineProp_last acc e hpre, ih (acc ++ [e]) (hsplit ▸ h), hsplit]

theorem defineAll_copy (o : Obj) (h : WellFormed o) : defineAll o [] = o := by
  have := defineAll_append o [] (by simpa using h)
  simpa using this

theorem getKey_of_mem (o : Obj) (h : WellFormed o) (e : String × Value) (he : e ∈ o) :
    getKey e.1 o = some e.2 := by
  induction o with
  | nil => cases he
  | cons x o ih =>
    unfold WellFormed at h
    rw [List.pairwise_cons] at h
    obtain ⟨hall, ho⟩ := h
    obtain ⟨kx, vx⟩ := x
    rw [getKey_cons]
    rcases List.mem_cons.mp he with hex | heo
    · subst hex
      have hnone : getKey kx o = none :=
        (getKey_eq_none_iff kx o).mpr
          ((hasKey_false_iff kx o).mpr (fun a ha => fun hk => (hall a ha).1 hk.symm))
      simp [hnone]
    · rw [ih ho heo]
      simp

theorem defineProp_same (k : String) (v : Value) (o : Obj) (h : WellFormed o)
    (hv : getKey k o = some v) : defineProp k v o = o := by
  have hk : hasKey k o = true := (hasKey_iff_isSome k o).mpr (by simp [hv])
  unfold defineProp
  rw [hk]
  simp only [if_true]
  have hid : o.map (fun e => if e.1 = k then (e.1, v) else e) = o.map id := by
    apply List.map_congr_left
    intro e he
    by_cases hek : e.1 = k
    · have := getKey_of_mem o h e he
      rw [hek, hv] at this
      simp only [Option.some.injEq] at this
      rw [if_pos hek, this]
      rfl
    · rw [if_neg hek]
      rfl
  rw [hid, List.map_id]

theorem hasKey_replace (k k' : String) (v : Value) (o : Obj) :
    hasKey k (o.map (fun e => if e.1 = k' then (e.1, v) else e)) = hasKey k o := by
  induction o with
  | nil => rfl
  | cons e o ih =>
    have hh : ∀ (x : String × Value) (xs : Obj),
        hasKey k (x :: xs) = (decide (x.1 = k) || hasKey k xs) := fun _ _ => rfl
    rw [List.map_cons, hh, hh, ih]
    by_cases he : e.1 = k' <;> simp [he]

theorem defineAll_present (src s : Obj) (h : ∀ e ∈ src, hasKey e.1 s = true) :
    defineAll src s = s.map (fun e => (e.1, (getKey e.1 src).getD e.2)) := by
  induction src generalizing s with
  | nil => simp [defineAll, getKey]
  | cons x src ih =>
    obtain ⟨k, v⟩ := x
    have hstep : defineAll ((k, v) :: src) s = defineAll src (defineProp k v s) := rfl
    have hk : hasKey k s = true := h (k, v) (List.mem_cons_self _ _)
    have hset : defineProp k v s = s.map (fun e => if e.1 = k then (e.1, v) else e) := by
      unfold defineProp; rw [hk]; rfl
    rw [hstep, hset, ih, List.map_map]
    · apply List.map_congr_left
      intro e _
      simp only [Function.comp, getKey_cons]
      by_cases hek : e.1 = k
      · have hke : k = e.1 := hek.symm
        simp only [if_pos hek, if_pos hke]
        cases getKey e.1 src <;> simp
      · have hke : ¬ k = e.1 := fun h => hek h.symm
        simp only [if_neg hek, if_neg hke]
        cases getKey e.1 src <;> simp
    · intro e he
      rw [hasKey_replace]
      exact h e (List.mem_cons_of_mem _ he)

theorem defineAll_again (src target : Obj) (h : WellFormed target) :
    defineAll src (defineAll src target) = defineAll src target := by
  have hwf : WellFormed (defineAll src target) := wellFormed_defineAll src target h
  rw [defineAll_present src (defineAll src target)]
  · have hid : (defineAll src target).map (fun e => (e.1, (getKey e.1 src).getD e.2))
        = (defineAll src target).map id := by
      apply List.map_congr_left
      intro e he
      have h1 := getKey_of_mem _ hwf e he
      rw [getKey_defineAll] at h1
      cases hs : getKey e.1 src with
      | none => simp
      | some u =>
        rw [hs] at h1
        simp only [Option.or_some, Option.some.injEq] at h1
        simp [h1]
    rw [hid, List.map_id]
  · intro e he
    rw [hasKey_iff_isSome, getKey_defineAll]
    have : (getKey e.1 src).isSome = true :=
      (hasKey_iff_isSome e.1 src).mp ((hasKey_iff_mem e.1 src).mpr (List.mem_map_of_mem _ he))
    cases hs : getKey e.1 src with
    | none => rw [hs] at this; cases this
    | some u => simp


/-! ## Assignment on objects with a prototype -/

theorem hasKey_eq_isSome (k : String) (o : Obj) : hasKey k o = (getKey k o).isSome := by
  cases h : hasKey k o with
  | true => exact ((hasKey_iff_isSome k o).mp h).symm
  | false => rw [(getKey_eq_none_iff k o).mpr h]; rfl

theorem getKey_fromEntries (k : String) (members : Obj) :
    getKey k (fromEntries members) = getKey k members := by
  unfold fromEntries
  rw [getKey_defineAll, getKey_nil, Option.or_none]

theorem hasKey_fromEntries (k : String) (members : Obj) :
    hasKey k (fromEntries members) = hasKey k members := by
  rw [hasKey_eq_isSome, hasKey_eq_isSome, getKey_fromEntries]

theorem wellFormed_fromEntries (members : Obj) : WellFormed (fromEntries members) :=
  wellFormed_defineAll _ _ wellFormed_nil

theorem fromEntries_wellFormed (o : Obj) (h : WellFormed o) : fromEntries o = o :=
  defineAll_copy o h

theorem getKey_ownEntries (k : String) (v : Value) :
    getKey k (ownEntries v) = getKey k (ownProps v) :=
  getKey_fromEntries k _

theorem protoSetter_own (x : Value) (o : JsObject) : (protoSetter x o).own = o.own := by
  cases x <;> rfl

theorem setProp_ordinary (k : String) (x : Value) (o : JsObject) (hk : k ≠ "__proto__") :
    setProp k x o = { o with own := defineProp k x o.own } := by
  unfold setProp
  rw [if_neg (fun h => hk h.1)]

theorem own_setProp (k k' : String) (x : Value) (o : JsObject) (hk : k ≠ "__proto__") :
    getKey k (setProp k' x o).own = if k = k' then some x else getKey k o.own := by
  unfold setProp
  split
  · rename_i h
    have hne : ¬ k = k' := fun e => hk (e.trans h.1)
    rw [protoSetter_own, if_neg hne]
  · exact getKey_defineProp k k' x o.own

theorem own_assignAll (k : String) (src : Obj) (target : JsObject) (hk : k ≠ "__proto__") :
    getKey k (assignAll src target).own = (getKey k src).or (getKey k target.own) := by
  induction src generalizing target with
  | nil => simp [assignAll, getKey]
  | cons e src ih =>
    obtain ⟨k', v⟩ := e
    have h : assignAll ((k', v) :: src) target = assignAll src (setProp k' v target) := rfl
    rw [h, ih, own_setProp k k' v target hk, getKey_cons]
    cases getKey k src with
    | some w => simp
    | none =>
      by_cases hkk : k = k'
      · subst hkk; simp
      · have : ¬ k' = k := fun h => hkk h.symm
        simp [hkk, this]

theorem wellFormed_setProp (k : String) (x : Value) (o : JsObject) (h : WellFormed o.own) :
    WellFormed (setProp k x o).own := by
  unfold setProp
  split
  · rw [protoSetter_own]; exact h
  · exact wellFormed_defineProp k x o.own h

theorem wellFormed_assignAll (src : Obj) (target : JsObject) (h : WellFormed target.own) :
    WellFormed (assignAll src target).own := by
  induction src generalizing target with
  | nil => exact h
  | cons e src ih => exact ih _ (wellFormed_setProp e.1 e.2 target h)

theorem assignAll_plain (src : Obj) (target : JsObject)
    (h : hasKey "__proto__" src = false) :
    assignAll src target = { own := defineAll src target.own, proto := target.proto } := by
  induction src generalizing target with
  | nil => rfl
  | cons e src ih =>
    have hall := (hasKey_false_iff "__proto__" (e :: src)).mp h
    have he : e.1 ≠ "__proto__" := hall e (List.mem_cons_self _ _)
    have hsrc : hasKey "__proto__" src = false :=
      (hasKey_false_iff "__proto__" src).mpr (fun x hx => hall x (List.mem_cons_of_mem _ hx))
    have hstep : assignAll (e :: src) target = assignAll src (setProp e.1 e.2 target) := rfl
    rw [hstep, ih _ hsrc, setProp_ordinary e.1 e.2 target he]
    rfl

theorem hasKey_defineProp (k k' : String) (v : Value) (o : Obj) :
    hasKey k (defineProp k' v o) = (decide (k = k') || hasKey k o) := by
  rw [hasKey_eq_isSome, hasKey_eq_isSome, getKey_defineProp]
  by_cases h : k = k' <;> simp [h]

theorem assignAll_no_own_proto (src : Obj) (target : JsObject)
    (hnodup : (src.map Prod.fst).Nodup)
    (hown : hasKey "__proto__" target.own = false)
    (h : target.proto = Proto.standard ∨ hasKey "__proto__" src = false) :
    hasKey "__proto__" (assignAll src target).own = false := by
  induction src generalizing target with
  | nil => exact hown
  | cons e src ih =>
    have hstep : assignAll (e :: src) target = assignAll src (setProp e.1 e.2 target) := rfl
    rw [hstep]
    rw [List.map_cons, List.nodup_cons] at hnodup
    by_cases he : e.1 = "__proto__"
    · have hrest : hasKey "__proto__" src = false := by
        rw [← Bool.not_eq_true, hasKey_iff_mem, ← he]
        exact hnodup.1
      have hstd : target.proto = Proto.standard := by
        rcases h with h | h
        · exact h
        · have := (hasKey_false_iff "__proto__" (e :: src)).mp h e (List.mem_cons_self _ _)
          exact absurd he this
      have hset : setProp e.1 e.2 target = protoSetter e.2 target := by
        unfold setProp
        rw [if_pos]
        refine ⟨he, ?_, ?_⟩
        · rw [he]; exact hown
        · rw [hstd]; rfl
      rw [hset]
      apply ih _ hnodup.2
      · rw [protoSetter_own]; exact hown
      · exact Or.inr hrest
    · rw [setProp_ordinary e.1 e.2 target he]
      apply ih _ hnodup.2
      · show hasKey "__proto__" (defineProp e.1 e.2 target.own) = false
        rw [hasKey_defineProp, hown]
        have : ¬ "__proto__" = e.1 := fun x => he x.symm
        simp [this]
      · rcases h with h | h
        · exact Or.inl h
        · exact Or.inr ((hasKey_false_iff "__proto__" src).mpr
            (fun x hx => (hasKey_false_iff "__proto__" (e :: src)).mp h x
              (List.mem_cons_of_mem _ hx)))

theorem nodup_keys_of_wellFormed (o : Obj) (h : WellFormed o) : (o.map Prod.fst).Nodup := by
  unfold WellFormed at h
  rw [List.Nodup, List.pairwise_map]
  exact h.imp (fun hab => hab.1)

/-! ## Enumeration with inherited properties -/

theorem enumerate_standard (own : Obj) :
    enumerate { own := own, proto := Proto.standard } = own := by
  simp [enumerate, inherited]

theorem getKey_enumerate_own (o : JsObject) (k : String) (v : Value)
    (h : getKey k o.own = some v) : getKey k (enumerate o) = some v := by
  unfold enumerate
  rw [getKey_append, getKey_filter k (fun x => !hasKey x o.own)]
  have hk : hasKey k o.own = true := by rw [hasKey_eq_isSome, h]; rfl
  simp [hk, h]

theorem hasKey_enumerate_own (o : JsObject) (k : String)
    (h : hasKey k o.own = true) : hasKey k (enumerate o) = true := by
  rw [hasKey_eq_isSome] at h
  obtain ⟨v, hv⟩ := Option.isSome_iff_exists.mp h
  rw [hasKey_eq_isSome, getKey_enumerate_own o k v hv]
  rfl

theorem nodup_enumerate (o : JsObject) (h : WellFormed o.own) :
    ((enumerate o).map Prod.fst).Nodup := by
  unfold enumerate
  rw [List.map_append, List.nodup_append]
  refine ⟨nodup_keys_of_wellFormed _ h, ?_, ?_⟩
  · have hin : ((inherited o.proto).map Prod.fst).Nodup := by
      cases o.proto with
      | standard => simp [inherited]
      | absent => simp [inherited]
      | value v => exact nodup_keys_of_wellFormed _ (wellFormed_fromEntries _)
    exact hin.sublist (List.Sublist.map _ (List.filter_sublist _))
  · intro a ha hb
    rw [List.mem_map] at ha hb
    obtain ⟨e, he, hea⟩ := ha
    obtain ⟨e', he', hea'⟩ := hb
    have hf := (List.mem_filter.mp he').2
    have hk : hasKey e'.1 o.own = true := by
      rw [hasKey_iff_mem, hea', ← hea]
      exact List.mem_map_of_mem _ he
    simp [hk] at hf

/-! ## Lookup in the merged manifest -/

theorem getKey_assoc (k X : String) (val : Value) (o : JsObject) (hk : k ≠ "__proto__") :
    getKey k (assoc X val o).own = if k = X then some val else getKey k (enumerate o) := by
  unfold assoc
  rw [own_setProp k X val _ hk, own_assignAll k _ _ hk]
  simp [emptyObject, getKey]

theorem getKey_omitKeys (k : String) (names : List String) (o : JsObject)
    (hk : k ≠ "__proto__") :
    getKey k (omitKeys names o).own
      = if k ∈ names then none else getKey k (enumerate o) := by
  unfold omitKeys
  rw [own_assignAll k _ _ hk, getKey_filter k (fun x => decide (x ∉ names))]
  by_cases h : k ∈ names <;> simp [h, emptyObject, getKey]

theorem getKey_merge (k : String) (l r : Obj) (hk : k ≠ "__proto__") :
    getKey k (merge l r).own = (getKey k r).or (getKey k l) := by
  unfold merge
  rw [own_assignAll k _ _ hk, own_assignAll k _ _ hk]
  simp [emptyObject, getKey]

theorem getKey_otherKeys (k : String) (f : Obj) (hk : k ≠ "__proto__") :
    getKey k (otherKeys f).own = if k ∈ specialKeys then none else getKey k f := by
  unfold otherKeys
  rw [getKey_omitKeys _ _ _ hk, ofParsed, enumerate_standard, getKey_fromEntries]
  rfl

theorem getKey_withSpecialKeys (k : String) (b f : Obj) (hk : k ≠ "__proto__") :
    getKey k (withSpecialKeys b f).own
      = if k = "scripts" then some (Value.obj (mergedEntries b f "scripts"))
        else getKey k (enumerate
          (assoc "devDependencies" (Value.obj (mergedEntries b f "devDependencies"))
            (assoc "dependencies" (Value.obj (mergedEntries b f "dependencies"))
              (ofParsed b)))) := by
  unfold withSpecialKeys
  simp only []
  rw [getKey_assoc _ _ _ _ hk]

theorem getKey_mergePackageJsons (k : String) (b f : Obj) (hk : k ≠ "__proto__") :
    getKey k (mergePackageJsons b f)
      = (if k ∈ specialKeys then none else getKey k f).or
          (getKey k (withSpecialKeys b f).own) := by
  unfold mergePackageJsons
  rw [getKey_merge _ _ _ hk, getKey_otherKeys _ _ hk]

theorem getKey_mergePackageJsons_special (b f : Obj) (X : String) (hX : X ∈ specialKeys) :
    getKey X (mergePackageJsons b f) = some (Value.obj (mergedEntries b f X)) := by
  have hne : X ≠ "__proto__" := by
    intro h; subst h; revert hX; decide
  rw [getKey_mergePackageJsons X b f hne, if_pos hX, Option.none_or,
    getKey_withSpecialKeys X b f hne]
  simp only [specialKeys, List.mem_cons, List.mem_singleton, List.not_mem_nil, or_false] at hX
  rcases hX with h | h | h
  · subst h
    rw [if_neg (by decide)]
    apply getKey_enumerate_own
    rw [getKey_assoc _ _ _ _ (by decide), if_neg (by decide)]
    apply getKey_enumerate_own
    rw [getKey_assoc _ _ _ _ (by decide), if_pos rfl]
  · subst h
    rw [if_neg (by decide)]
    apply getKey_enumerate_own
    rw [getKey_assoc _ _ _ _ (by decide), if_pos rfl]
  · subst h
    rw [if_pos rfl]

theorem getKey_mergePackageJsons_fragment (b f : Obj) (k : String) (v : Value)
    (hk : k ∉ specialKeys) (hp : k ≠ "__proto__") (hv : getKey k f = some v) :
    getKey k (mergePackageJsons b f) = some v := by
  rw [getKey_mergePackageJsons k b f hp, if_neg hk, hv, Option.or_some]

theorem getKey_mergePackageJsons_base (b f : Obj) (k : String) (v : Value)
    (hk : k ∉ specialKeys) (hp : k ≠ "__proto__") (hf : getKey k f = none)
    (hv : getKey k b = some v) :
    getKey k (mergePackageJsons b f) = some v := by
  have h1 : ¬ k = "dependencies" := fun h => hk (by simp [specialKeys, h])
  have h2 : ¬ k = "devDependencies" := fun h => hk (by simp [specialKeys, h])
  have h3 : ¬ k = "scripts" := fun h => hk (by simp [specialKeys, h])
  rw [getKey_mergePackageJsons k b f hp, if_neg hk, hf, Option.none_or,
    getKey_withSpecialKeys k b f hp, if_neg h3]
  apply getKey_enumerate_own
  rw [getKey_assoc _ _ _ _ hp, if_neg h2]
  apply getKey_enumerate_own
  rw [getKey_assoc _ _ _ _ hp, if_neg h1, ofParsed, enumerate_standard, getKey_fromEntries]
  exact hv

/-! ## Shape of the merged manifest -/

theorem wellFormed_merge (l r : Obj) : WellFormed (merge l r).own :=
  wellFormed_assignAll _ _ (wellFormed_assignAll _ _ wellFormed_nil)

theorem wellFormed_assoc (X : String) (val : Value) (o : JsObject) :
    WellFormed (assoc X val o).own :=
  wellFormed_setProp _ _ _ (wellFormed_assignAll _ _ wellFormed_nil)

theorem wellFormed_mergePackageJsons (b f : Obj) : WellFormed (mergePackageJsons b f) :=
  wellFormed_merge _ _

theorem copy_no_own_proto (src : Obj) (hnodup : (src.map Prod.fst).Nodup) :
    hasKey "__proto__" (assignAll src emptyObject).own = false :=
  assignAll_no_own_proto src emptyObject hnodup rfl (Or.inl rfl)

theorem assoc_no_own_proto (X : String) (val : Value) (o : JsObject)
    (hX : X ≠ "__proto__") (h : WellFormed o.own) :
    hasKey "__proto__" (assoc X val o).own = false := by
  unfold assoc
  rw [setProp_ordinary X val _ hX]
  show hasKey "__proto__" (defineProp X val (assignAll (enumerate o) emptyObject).own) = false
  rw [hasKey_defineProp, copy_no_own_proto _ (nodup_enumerate o h)]
  have : ¬ "__proto__" = X := fun e => hX e.symm
  simp [this]

theorem omitKeys_no_own_proto (names : List String) (o : JsObject) (h : WellFormed o.own) :
    hasKey "__proto__" (omitKeys names o).own = false := by
  unfold omitKeys
  apply copy_no_own_proto
  exact (nodup_enumerate o h).sublist (List.Sublist.map _ (List.filter_sublist _))

theorem merge_plain (l r : Obj) (hl : hasKey "__proto__" l = false)
    (hr : hasKey "__proto__" r = false) :
    merge l r = { own := defineAll r (defineAll l []), proto := Proto.standard } := by
  unfold merge
  rw [assignAll_plain l _ hl, assignAll_plain r _ hr]
  rfl

theorem hasKey_defineAll (k : String) (src target : Obj) :
    hasKey k (defineAll src target) = (hasKey k src || hasKey k target) := by
  rw [hasKey_eq_isSome, hasKey_eq_isSome, hasKey_eq_isSome, getKey_defineAll]
  cases getKey k src <;> simp

theorem wellFormed_withSpecialKeys (b f : Obj) : WellFormed (withSpecialKeys b f).own :=
  wellFormed_assoc _ _ _

theorem withSpecialKeys_no_own_proto (b f : Obj) :
    hasKey "__proto__" (withSpecialKeys b f).own = false :=
  assoc_no_own_proto _ _ _ (by decide) (wellFormed_assoc _ _ _)

theorem otherKeys_no_own_proto (f : Obj) : hasKey "__proto__" (otherKeys f).own = false :=
  omitKeys_no_own_proto _ _ (wellFormed_fromEntries f)

theorem mergePackageJsons_plain (b f : Obj) :
    mergePackageJsons b f
      = defineAll (otherKeys f).own (defineAll (withSpecialKeys b f).own []) := by
  unfold mergePackageJsons
  rw [merge_plain _ _ (withSpecialKeys_no_own_proto b f) (otherKeys_no_own_proto f)]

theorem mergePackageJsons_no_own_proto (b f : Obj) :
    hasKey "__proto__" (mergePackageJsons b f) = false := by
  rw [mergePackageJsons_plain, hasKey_defineAll, hasKey_defineAll, otherKeys_no_own_proto,
    withSpecialKeys_no_own_proto]
  rfl

/-! ## Merging the fragment a second time -/

theorem filter_ordinary_self (src : Obj) (h : hasKey "__proto__" src = false) :
    src.filter (fun e => decide (e.1 ≠ "__proto__")) = src := by
  rw [List.filter_eq_self]
  intro e he
  simpa using (hasKey_false_iff "__proto__" src).mp h e he

theorem hasKey_filter_ordinary (src : Obj) :
    hasKey "__proto__" (src.filter (fun e => decide (e.1 ≠ "__proto__"))) = false := by
  rw [hasKey_false_iff]
  intro e he
  simpa using (List.mem_filter.mp he).2

theorem assignAll_standard (src : Obj) (target : JsObject)
    (hnodup : (src.map Prod.fst).Nodup)
    (hown : hasKey "__proto__" target.own = false)
    (hstd : target.proto = Proto.standard) :
    (assignAll src target).own
      = defineAll (src.filter (fun e => decide (e.1 ≠ "__proto__"))) target.own := by
  induction src generalizing target with
  | nil => rfl
  | cons e src ih =>
    have hstep : assignAll (e :: src) target = assignAll src (setProp e.1 e.2 target) := rfl
    rw [hstep]
    rw [List.map_cons, List.nodup_cons] at hnodup
    by_cases he : e.1 = "__proto__"
    · have hrest : hasKey "__proto__" src = false := by
        rw [← Bool.not_eq_true, hasKey_iff_mem, ← he]
        exact hnodup.1
      have hset : setProp e.1 e.2 target = protoSetter e.2 target := by
        unfold setProp
        rw [if_pos]
        refine ⟨he, ?_, ?_⟩
        · rw [he]; exact hown
        · rw [hstd]; rfl
      have hfil : (e :: src).filter (fun e => decide (e.1 ≠ "__proto__")) = src := by
        rw [List.filter_cons, if_neg (by simp [he]), filter_ordinary_self src hrest]
      rw [hset, assignAll_plain src _ hrest, hfil, protoSetter_own]
    · have hfil : (e :: src).filter (fun e => decide (e.1 ≠ "__proto__"))
          = e :: src.filter (fun e => decide (e.1 ≠ "__proto__")) := by
        rw [List.filter_cons, if_pos (by simp [he])]
      rw [setProp_ordinary e.1 e.2 target he, hfil]
      apply ih _ hnodup.2
      · show hasKey "__proto__" (defineProp e.1 e.2 target.own) = false
        rw [hasKey_defineProp, hown]
        have : ¬ "__proto__" = e.1 := fun x => he x.symm
        simp [this]
      · exact hstd

theorem mergedEntries_plain (b f : Obj) (X : String)
    (h : hasKey "__proto__" (ownProps (readProp b X)) = false ∨
      hasKey "__proto__" (ownProps (readProp f X)) = false) :
    ∃ T : Obj, WellFormed T ∧ hasKey "__proto__" T = false ∧
      mergedEntries b f X
        = defineAll ((ownEntries (readProp f X)).filter (fun e => decide (e.1 ≠ "__proto__")))
            T := by
  have hBnodup : ((ownEntries (readProp b X)).map Prod.fst).Nodup :=
    nodup_keys_of_wellFormed _ (wellFormed_fromEntries (ownProps (readProp b X)))
  have hFnodup : ((ownEntries (readProp f X)).map Prod.fst).Nodup :=
    nodup_keys_of_wellFormed _ (wellFormed_fromEntries (ownProps (readProp f X)))
  have hT : hasKey "__proto__" (assignAll (ownEntries (readProp b X)) emptyObject).own = false :=
    copy_no_own_proto _ hBnodup
  refine ⟨(assignAll (ownEntries (readProp b X)) emptyObject).own,
    wellFormed_assignAll _ _ wellFormed_nil, hT, ?_⟩
  rcases h with hb | hf
  · have hB : hasKey "__proto__" (ownEntries (readProp b X)) = false := by
      unfold ownEntries; rw [hasKey_fromEntries]; exact hb
    have hplain := assignAll_plain (ownEntries (readProp b X)) emptyObject hB
    unfold mergedEntries merge
    exact assignAll_standard (ownEntries (readProp f X))
      (assignAll (ownEntries (readProp b X)) emptyObject) hFnodup hT (by rw [hplain]; rfl)
  · have hF : hasKey "__proto__" (ownEntries (readProp f X)) = false := by
      unfold ownEntries; rw [hasKey_fromEntries]; exact hf
    unfold mergedEntries merge
    rw [assignAll_plain _ _ hF, filter_ordinary_self _ hF]

theorem wellFormed_mergedEntries (b f : Obj) (X : String) : WellFormed (mergedEntries b f X) :=
  wellFormed_merge _ _

theorem mergedEntries_again (b f : Obj) (X : String) (hX : X ∈ specialKeys)
    (h : hasKey "__proto__" (ownProps (readProp b X)) = false ∨
      hasKey "__proto__" (ownProps (readProp f X)) = false) :
    mergedEntries (mergePackageJsons b f) f X = mergedEntries b f X := by
  obtain ⟨T, hwf, hnoT, heq⟩ := mergedEntries_plain b f X h
  have hFnodup : ((ownEntries (readProp f X)).map Prod.fst).Nodup :=
    nodup_keys_of_wellFormed _ (wellFormed_fromEntries (ownProps (readProp f X)))
  have hno : hasKey "__proto__" (mergedEntries b f X) = false := by
    rw [heq, hasKey_defineAll, hasKey_filter_ordinary, hnoT]
    rfl
  have hread : readProp (mergePackageJsons b f) X = Value.obj (mergedEntries b f X) := by
    unfold readProp
    rw [getKey_mergePackageJsons_special b f X hX]
    rfl
  have hown : ownEntries (Value.obj (mergedEntries b f X)) = mergedEntries b f X :=
    fromEntries_wellFormed _ (wellFormed_mergedEntries b f X)
  have hunfold : mergedEntries (mergePackageJsons b f) f X
      = (assignAll (ownEntries (readProp f X))
          (assignAll (ownEntries (readProp (mergePackageJsons b f) X)) emptyObject)).own := rfl
  have hcopy : assignAll (mergedEntries b f X) emptyObject
      = { own := mergedEntries b f X, proto := Proto.standard } := by
    rw [assignAll_plain _ _ hno]
    show ({ own := defineAll (mergedEntries b f X) [], proto := Proto.standard } : JsObject) = _
    rw [defineAll_copy _ (wellFormed_mergedEntries b f X)]
  rw [hunfold, hread, hown, hcopy,
    assignAll_standard (ownEntries (readProp f X))
      { own := mergedEntries b f X, proto := Proto.standard } hFnodup hno rfl]
  show defineAll _ (mergedEntries b f X) = mergedEntries b f X
  conv_lhs => rw [heq]
  rw [defineAll_again _ _ hwf]
  exact heq.symm

theorem assoc_same (X : String) (v : Value) (m : Obj) (hX : X ≠ "__proto__")
    (hwf : WellFormed m) (hno : hasKey "__proto__" m = false) (hv : getKey X m = some v) :
    assoc X v { own := m, proto := Proto.standard } = { own := m, proto := Proto.standard } := by
  unfold assoc
  rw [enumerate_standard, assignAll_plain m emptyObject hno, setProp_ordinary X v _ hX]
  show ({ own := defineProp X v (defineAll m []), proto := Proto.standard } : JsObject)
    = { own := m, proto := Proto.standard }
  rw [defineAll_copy m hwf, defineProp_same X v m hwf hv]

theorem withSpecialKeys_again (b f : Obj)
    (hf : ∀ X, X ∈ specialKeys →
      hasKey "__proto__" (ownProps (readProp b X)) = false ∨
      hasKey "__proto__" (ownProps (readProp f X)) = false) :
    withSpecialKeys (mergePackageJsons b f) f
      = { own := mergePackageJsons b f, proto := Proto.standard } := by
  have hwf := wellFormed_mergePackageJsons b f
  have hno := mergePackageJsons_no_own_proto b f
  have hstep : ∀ X, X ∈ specialKeys →
      assoc X (Value.obj (mergedEntries (mergePackageJsons b f) f X))
        { own := mergePackageJsons b f, proto := Proto.standard }
        = { own := mergePackageJsons b f, proto := Proto.standard } := by
    intro X hX
    have hne : X ≠ "__proto__" := by
      intro h; subst h; revert hX; decide
    rw [mergedEntries_again b f X hX (hf X hX)]
    exact assoc_same X _ _ hne hwf hno (getKey_mergePackageJsons_special b f X hX)
  have hparsed : ofParsed (mergePackageJsons b f)
      = { own := mergePackageJsons b f, proto := Proto.standard } := by
    unfold ofParsed
    rw [fromEntries_wellFormed _ hwf]
  unfold withSpecialKeys
  simp only []
  rw [hparsed, hstep "dependencies" (by decide), hstep "devDependencies" (by decide),
    hstep "scripts" (by decide)]

theorem mergePackageJsons_again (b f : Obj)
    (hf : ∀ X, X ∈ specialKeys →
      hasKey "__proto__" (ownProps (readProp b X)) = false ∨
      hasKey "__proto__" (ownProps (readProp f X)) = false) :
    mergePackageJsons (mergePackageJsons b f) f = mergePackageJsons b f := by
  have hwf := wellFormed_mergePackageJsons b f
  have hno := mergePackageJsons_no_own_proto b f
  have hunfold : mergePackageJsons (mergePackageJsons b f) f
      = (merge (withSpecialKeys (mergePackageJsons b f) f).own (otherKeys f).own).own := rfl
  rw [hunfold, withSpecialKeys_again b f hf, merge_plain _ _ hno (otherKeys_no_own_proto f)]
  show defineAll (otherKeys f).own (defineAll (mergePackageJsons b f) [])
    = mergePackageJsons b f
  rw [defineAll_copy _ hwf]
  conv_lhs => rw [mergePackageJsons_plain]
  rw [defineAll_again _ _ (wellFormed_defineAll _ _ wellFormed_nil)]
  exact (mergePackageJsons_plain b f).symm

/-! ## The manifest merge: claims C2, C3, C4, C9 -/

/-- C2, as stated, fails: with base `name: "p"` and fragment `name: "q"`, a key
other than the three special ones that both manifests have, the merged
manifest holds the fragment's value `"q"`, not the base's value `"p"`. -/
theorem base_value_is_overwritten :
    "name" ∉ specialKeys ∧
    getKey "name" [("name", Value.str "p")] = some (Value.str "p") ∧
    getKey "name" [("name", Value.str "q")] = some (Value.str "q") ∧
    getKey "name" (mergePackageJsons [("name", Value.str "p")] [("name", Value.str "q")])
      = some (Value.str "q") ∧
    getKey "name" (mergePackageJsons [("name", Value.str "p")] [("name", Value.str "q")])
      ≠ getKey "name" [("name", Value.str "p")] := by
  decide

/-- C2, amended: for every base manifest `b`, fragment `f` and key `k` other
than `dependencies`, `devDependencies`, `scripts` and `__proto__`, a key the
fragment has carries the fragment's value in the merged manifest (so also
when the base has it too), and a key the fragment lacks and the base has
carries the base's value. -/
theorem fragment_value_wins (b f : Obj) (k : String) (hk : k ∉ specialKeys)
    (hp : k ≠ "__proto__") :
    (∀ v, getKey k f = some v → getKey k (mergePackageJsons b f) = some v) ∧
    (∀ v, getKey k f = none → getKey k b = some v →
      getKey k (mergePackageJsons b f) = some v) :=
  ⟨fun v hv => getKey_mergePackageJsons_fragment b f k v hk hp hv,
    fun v hf hv => getKey_mergePackageJsons_base b f k v hk hp hf hv⟩

/-- Witness of C2 amended: the key `name` of base `name: "p"` and fragment
`name: "q"`, and the key `name` of the worked example, which only the base
has. -/
theorem fragment_value_wins_witness :
    getKey "name" (mergePackageJsons [("name", Value.str "p")] [("name", Value.str "q")])
      = some (Value.str "q") ∧
    getKey "name" (mergePackageJsons specBase specFragment) = some (Value.str "p") :=
  ⟨(fragment_value_wins [("name", Value.str "p")] [("name", Value.str "q")] "name"
      (by decide) (by decide)).1 (Value.str "q") (by decide),
    (fragment_value_wins specBase specFragment "name" (by decide) (by decide)).2
      (Value.str "p") (by decide) (by decide)⟩

/-- C3, as stated, fails: the fragment's `dependencies` have the entries
`__proto__` and `a`; the merged `dependencies` have the entry `a` only, so
an entry present in `f.X` is missing from the merged `X`. -/
theorem proto_entry_is_not_merged :
    "dependencies" ∈ specialKeys ∧
    getKey "__proto__" (ownProps (readProp
        [("dependencies", Value.obj [("__proto__", Value.obj []), ("a", Value.str "1")])]
        "dependencies")) = some (Value.obj []) ∧
    getKey "dependencies" (mergePackageJsons []
        [("dependencies", Value.obj [("__proto__", Value.obj []), ("a", Value.str "1")])])
      = some (Value.obj [("a", Value.str "1")]) ∧
    getKey "__proto__" [("a", Value.str "1")] = none := by
  decide

/-- C3, amended: for every base manifest `b`, fragment `f` and special key `X`,
the merged manifest's `X` is an object with unique keys whose entry at any
key `e` other than `__proto__` is the fragment's entry of `f.X` when there
is one and the base's entry of `b.X` otherwise; nothing else appears at
such keys. A missing `b.X` or `f.X` reads as `undefined`, which has no
entries. -/
theorem special_key_is_union (b f : Obj) (X : String) (hX : X ∈ specialKeys) :
    ∃ u : Obj,
      getKey X (mergePackageJsons b f) = some (Value.obj u) ∧
      (u.map Prod.fst).Nodup ∧
      ∀ e, e ≠ "__proto__" → getKey e u
        = (getKey e (ownProps (readProp f X))).or (getKey e (ownProps (readProp b X))) := by
  refine ⟨mergedEntries b f X, getKey_mergePackageJsons_special b f X hX,
    nodup_keys_of_wellFormed _ (wellFormed_mergedEntries b f X), ?_⟩
  intro e he
  unfold mergedEntries
  rw [getKey_merge e _ _ he, getKey_ownEntries, getKey_ownEntries]

/-- Witness of C3 amended: the worked example, whose merged `dependencies` are
`a: "2", b: "1"` and whose merged `scripts` are `lint: "x", test: "y"`. -/
theorem special_key_is_union_witness :
    "dependencies" ∈ specialKeys ∧
    (∃ u : Obj,
      getKey "dependencies" (mergePackageJsons specBase specFragment) = some (Value.obj u) ∧
      (u.map Prod.fst).Nodup ∧
      ∀ e, e ≠ "__proto__" → getKey e u
        = (getKey e (ownProps (readProp specFragment "dependencies"))).or
            (getKey e (ownProps (readProp specBase "dependencies")))) ∧
    getKey "dependencies" (mergePackageJsons specBase specFragment)
      = some (Value.obj [("a", Value.str "2"), ("b", Value.str "1")]) ∧
    getKey "scripts" (mergePackageJsons specBase specFragment)
      = some (Value.obj [("lint", Value.str "x"), ("test", Value.str "y")]) ∧
    getKey "devDependencies" (mergePackageJsons specBase specFragment)
      = some (Value.obj []) :=
  ⟨by decide, special_key_is_union specBase specFragment "dependencies" (by decide),
    by decide, by decide, by decide⟩

/-- C4, as stated, fails: the fragment has the top-level keys `__proto__` and
`version`; the merged manifest has `version` and the three special keys,
and no key `__proto__`. -/
theorem proto_key_is_lost :
    hasKey "__proto__" [("__proto__", Value.obj []), ("version", Value.str "1.0")] = true ∧
    mergePackageJsons [] [("__proto__", Value.obj []), ("version", Value.str "1.0")]
      = [("dependencies", Value.obj []), ("devDependencies", Value.obj []),
         ("scripts", Value.obj []), ("version", Value.str "1.0")] ∧
    hasKey "__proto__"
      (mergePackageJsons [] [("__proto__", Value.obj []), ("version", Value.str "1.0")])
      = false := by
  decide

/-- C4, amended: the merge loses no key other than `__proto__`. Every
top-level key of the base or of the fragment, `__proto__` apart, is a
top-level key of the merged manifest, and such a key outside the three
special ones that only one of the two has carries that one's value. -/
theorem merge_keeps_every_key (b f : Obj) (k : String) (hp : k ≠ "__proto__") :
    (hasKey k b = true ∨ hasKey k f = true → hasKey k (mergePackageJsons b f) = true) ∧
    (k ∉ specialKeys → getKey k f = none → ∀ v, getKey k b = some v →
      getKey k (mergePackageJsons b f) = some v) ∧
    (k ∉ specialKeys → getKey k b = none → ∀ v, getKey k f = some v →
      getKey k (mergePackageJsons b f) = some v) := by
  refine ⟨?_, ?_, ?_⟩
  · intro h
    rw [hasKey_eq_isSome]
    by_cases hk : k ∈ specialKeys
    · rw [getKey_mergePackageJsons_special b f k hk]; rfl
    · cases hf : getKey k f with
      | some v => rw [getKey_mergePackageJsons_fragment b f k v hk hp hf]; rfl
      | none =>
        have hb : hasKey k b = true := by
          rcases h with hb | hf'
          · exact hb
          · rw [hasKey_eq_isSome, hf] at hf'; cases hf'
        rw [hasKey_eq_isSome] at hb
        obtain ⟨v, hv⟩ := Option.isSome_iff_exists.mp hb
        rw [getKey_mergePackageJsons_base b f k v hk hp hf hv]; rfl
  · intro hk hf v hv
    exact getKey_mergePackageJsons_base b f k v hk hp hf hv
  · intro hk _ v hv
    exact getKey_mergePackageJsons_fragment b f k v hk hp hv

/-- Witness of C4 amended: in the worked example the base's `name` is kept, the
fragment's `version` is added, and the keys of the merged manifest are those
of both inputs together with `devDependencies`. -/
theorem merge_keeps_every_key_witness :
    hasKey "name" (mergePackageJsons specBase specFragment) = true ∧
    getKey "name" (mergePackageJsons specBase specFragment) = some (Value.str "p") ∧
    getKey "version" (mergePackageJsons specBase specFragment) = some (Value.str "1.0") ∧
    (mergePackageJsons specBase specFragment).map Prod.fst
      = ["dependencies", "scripts", "name", "devDependencies", "version"] :=
  ⟨(merge_keeps_every_key specBase specFragment "name" (by decide)).1 (Or.inl (by decide)),
    (merge_keeps_every_key specBase specFragment "name" (by decide)).2.1 (by decide)
      (by decide) (Value.str "p") (by decide),
    (merge_keeps_every_key specBase specFragment "version" (by decide)).2.2 (by decide)
      (by decide) (Value.str "1.0") (by decide),
    by decide⟩

/-- C9, as stated, fails: the base's `dependencies` are `__proto__: null`, the
fragment's are `__proto__: 1`. The first merge assigns `null`, which leaves
the merged `dependencies` without a prototype, and then `1`, which for want
of the setter becomes an own entry; the second merge starts from a fresh
object, where both assignments of `1` run the setter and are ignored. So
the second merge changes the manifest. -/
theorem second_merge_drops_proto_entry :
    mergePackageJsons [("dependencies", Value.obj [("__proto__", Value.null)])]
        [("dependencies", Value.obj [("__proto__", Value.num 1)])]
      = [("dependencies", Value.obj [("__proto__", Value.num 1)]),
         ("devDependencies", Value.obj []), ("scripts", Value.obj [])] ∧
    mergePackageJsons
        (mergePackageJsons [("dependencies", Value.obj [("__proto__", Value.null)])]
          [("dependencies", Value.obj [("__proto__", Value.num 1)])])
        [("dependencies", Value.obj [("__proto__", Value.num 1)])]
      = [("dependencies", Value.obj []),
         ("devDependencies", Value.obj []), ("scripts", Value.obj [])] ∧
    mergePackageJsons
        (mergePackageJsons [("dependencies", Value.obj [("__proto__", Value.null)])]
          [("dependencies", Value.obj [("__proto__", Value.num 1)])])
        [("dependencies", Value.obj [("__proto__", Value.num 1)])]
      ≠ mergePackageJsons [("dependencies", Value.obj [("__proto__", Value.null)])]
          [("dependencies", Value.obj [("__proto__", Value.num 1)])] := by
  decide

/-- C9, amended: the merge is idempotent for every base manifest `b` and
fragment `f` in which, for each of `dependencies`, `devDependencies` and
`scripts`, the base's or the fragment's object has no entry `__proto__`.
Merging the fragment into the manifest that the merge
produced gives that manifest again, entry for entry and in the same key
order: `merge(merge(b, f), f) = merge(b, f)`. The merge is a function of
its two inputs, so the same inputs give the same output. -/
theorem merge_is_idempotent (b f : Obj)
    (hf : ∀ X, X ∈ specialKeys →
      hasKey "__proto__" (ownProps (readProp b X)) = false ∨
      hasKey "__proto__" (ownProps (readProp f X)) = false) :
    mergePackageJsons (mergePackageJsons b f) f = mergePackageJsons b f :=
  mergePackageJsons_again b f hf

/-- Witness of C9 amended: the worked example. -/
theorem merge_is_idempotent_witness :
    (∀ X, X ∈ specialKeys →
      hasKey "__proto__" (ownProps (readProp specBase X)) = false ∨
      hasKey "__proto__" (ownProps (readProp specFragment X)) = false) ∧
    mergePackageJsons (mergePackageJsons specBase specFragment) specFragment
      = mergePackageJsons specBase specFragment :=
  ⟨by decide, merge_is_idempotent specBase specFragment (by decide)⟩

/-! ## The entity command: claims C1, C5, C6, C7, C8 -/

theorem getProp_obj (o : Obj) (k : String) :
    getProp (Value.obj o) k = some (readProp o k) := rfl

theorem askUntilFound_found (w : World) (default : Value) (name : String)
    (missed : List String) (d : String) (later : List String)
    (hmissed : ∀ a ∈ missed, existsSync w (promptedPath (stripTrailingSlash a) name) = false)
    (hfound : existsSync w (promptedPath (stripTrailingSlash d) name) = true) :
    askUntilFound w default name (missed ++ d :: later) =
      (missed.flatMap (fun a =>
          [Event.ask default,
           Event.info ("Looking for " ++ promptedPath (stripTrailingSlash a) name),
           Event.existsSync (promptedPath (stripTrailingSlash a) name),
           Event.error "Could not find entity file, please try again."]) ++
        [Event.ask default,
         Event.info ("Looking for " ++ promptedPath (stripTrailingSlash d) name),
         Event.existsSync (promptedPath (stripTrailingSlash d) name),
         Event.success ("Found entity file at " ++ promptedPath (stripTrailingSlash d) name)],
       some (stripTrailingSlash d, promptedPath (stripTrailingSlash d) name)) := by
  induction missed with
  | nil => simp [askUntilFound, hfound]
  | cons a missed ih =>
    have ha := hmissed a (List.mem_cons_self _ _)
    have ih' := ih (fun x hx => hmissed x (List.mem_cons_of_mem _ hx))
    simp [askUntilFound, ha, ih']

theorem localPath_ne_config (name : String) : localEntityFilePath name ≠ igniteConfigPath := by
  intro h
  have := congrArg String.data h
  simp [localEntityFilePath, igniteConfigPath, String.data_append] at this

theorem localPath_ne_cacheDir (name : String) : localEntityFilePath name ≠ ".jhipster" := by
  intro h
  have := congrArg String.length h
  simp [localEntityFilePath, entityFileName, String.length_append] at this
  have h1 : (".jhipster/" : String).length = 10 := by decide
  have h2 : (".json" : String).length = 5 := by decide
  have h3 : (".jhipster" : String).length = 9 := by decide
  omega

theorem promptedPath_ne_cacheDir (dir name : String) : promptedPath dir name ≠ ".jhipster" := by
  intro h
  have := congrArg String.length h
  simp [promptedPath, entityFileName, String.length_append] at this
  have h1 : ("/.jhipster/" : String).length = 11 := by decide
  have h2 : (".json" : String).length = 5 := by decide
  have h3 : (".jhipster" : String).length = 9 := by decide
  omega

/-- C7: for every blank entity name (as judged by `strings.isBlank`) the
command prints the two lines of the usage message and returns. Nothing else
is done: no file is read, no existence check is made, no prompt is asked,
nothing is written and no files are generated; the working tree is
untouched. -/
theorem blank_name_prints_usage (ctx : Context) (w : World) (answers : List String)
    (hblank : ctx.strings.isBlank ctx.parameters.first = true) :
    (entity ctx w answers).trace
      = [Event.info (ctx.brand ++ " generate entity <name>\n"),
         Event.info "A name is required."] ∧
    (entity ctx w answers).world = w ∧
    (entity ctx w answers).outcome = Outcome.usageShown := by
  simp [entity, hblank]

/-- Witness of C7: a name of blanks only, in the sample app. -/
theorem blank_name_prints_usage_witness :
    sampleStrings.isBlank (some "  ") = true ∧
    ((entity (sampleContext (some "  ") (some "../test")) sampleWorld ["../test"]).trace
      = [Event.info ("ignite" ++ " generate entity <name>\n"),
         Event.info "A name is required."] ∧
    (entity (sampleContext (some "  ") (some "../test")) sampleWorld ["../test"]).world
      = sampleWorld ∧
    (entity (sampleContext (some "  ") (some "../test")) sampleWorld ["../test"]).outcome
      = Outcome.usageShown) :=
  ⟨by decide, blank_name_prints_usage (sampleContext (some "  ") (some "../test")) sampleWorld
    ["../test"] (by decide)⟩

/-- C5: for every non-blank entity name, `P` its PascalCase form, whose local
cache file `.jhipster/P.json` exists, in a project whose
`ignite/ignite.json` holds a JSON object, and for every value of the
`--jh-dir` option and every sequence of answers, the command reads the
configuration, checks the local cache file, reports the hit and goes on to
file generation. These are all its operations: no prompt, no copy, no
directory creation, no write of `ignite/ignite.json`, no look at the
override path; the working tree is untouched. -/
theorem cache_hit_goes_to_generation (ctx : Context) (w : World) (answers : List String)
    (config : Obj) (P : String)
    (hP : ctx.strings.pascalCase ctx.parameters.first = P)
    (hname : ctx.strings.isBlank ctx.parameters.first = false)
    (hconfig : readJson w igniteConfigPath = some (Value.obj config))
    (hcached : existsSync w (localEntityFilePath P) = true) :
    (entity ctx w answers).trace
      = [Event.readJson igniteConfigPath,
         Event.existsSync (localEntityFilePath P),
         Event.success "Found the entity config locally in .jhipster",
         Event.generateFiles P (Value.obj config),
         Event.trackEntityOptions,
         Event.success "Entity successfully generated!"] ∧
    (entity ctx w answers).world = w ∧
    (entity ctx w answers).outcome = Outcome.generated := by
  subst hP
  simp [entity, hname, hconfig, hcached, getProp_obj, finish]

/-- C6: for every non-blank entity name, `P` its PascalCase form, without a
local cache file `.jhipster/P.json`, in a project whose
`ignite/ignite.json` holds a JSON object, and every non-empty override
directory `D` under which the entity file does not exist, the command
reads the configuration, checks the local cache file and the
override path, reports that no entity configuration file was found and
returns. No prompt is asked, no files are generated, and the working tree
(the configuration and `.jhipster/` included) is untouched. -/
theorem override_miss_reports_not_found (ctx : Context) (w : World) (answers : List String)
    (config : Obj) (D P : String)
    (hP : ctx.strings.pascalCase ctx.parameters.first = P)
    (hname : ctx.strings.isBlank ctx.parameters.first = false)
    (hconfig : readJson w igniteConfigPath = some (Value.obj config))
    (hlocal : existsSync w (localEntityFilePath P) = false)
    (hflag : ctx.parameters.jhDir = some D) (hD : D ≠ "")
    (hmiss : existsSync w (overridePath D P) = false) :
    (entity ctx w answers).trace
      = [Event.readJson igniteConfigPath,
         Event.existsSync (localEntityFilePath P),
         Event.existsSync (overridePath D P),
         Event.error ("No entity configuration file found at " ++ overridePath D P)] ∧
    (entity ctx w answers).world = w ∧
    (entity ctx w answers).outcome = Outcome.notFound := by
  subst hP
  simp [entity, hname, hconfig, hlocal, hflag, hD, hmiss, getProp_obj]

/-- Witness of C5: `Foo` is in the local cache; the override and the answers
are there and are not looked at. -/
theorem cache_hit_goes_to_generation_witness :
    (entity (sampleContext (some "Foo") (some "../elsewhere")) cachedWorld ["../test"]).trace
      = [Event.readJson "ignite/ignite.json",
         Event.existsSync ".jhipster/Foo.json",
         Event.success "Found the entity config locally in .jhipster",
         Event.generateFiles "Foo" (Value.obj sampleConfig),
         Event.trackEntityOptions,
         Event.success "Entity successfully generated!"] ∧
    (entity (sampleContext (some "Foo") (some "../elsewhere")) cachedWorld ["../test"]).world
      = cachedWorld ∧
    (entity (sampleContext (some "Foo") (some "../elsewhere")) cachedWorld ["../test"]).outcome
      = Outcome.generated :=
  cache_hit_goes_to_generation (sampleContext (some "Foo") (some "../elsewhere")) cachedWorld
    ["../test"] sampleConfig "Foo" rfl (by decide) (by decide) (by decide)

/-- Witness of C6: the override `../elsewhere` does not hold `Foo`. -/
theorem override_miss_reports_not_found_witness :
    (entity (sampleContext (some "Foo") (some "../elsewhere")) sampleWorld ["../test"]).trace
      = [Event.readJson "ignite/ignite.json",
         Event.existsSync ".jhipster/Foo.json",
         Event.existsSync "../elsewhere/.jhipster/Foo.json",
         Event.error ("No entity configuration file found at " ++
           "../elsewhere/.jhipster/Foo.json")] ∧
    (entity (sampleContext (some "Foo") (some "../elsewhere")) sampleWorld ["../test"]).world
      = sampleWorld ∧
    (entity (sampleContext (some "Foo") (some "../elsewhere")) sampleWorld ["../test"]).outcome
      = Outcome.notFound :=
  override_miss_reports_not_found (sampleContext (some "Foo") (some "../elsewhere")) sampleWorld
    ["../test"] sampleConfig "../elsewhere" "Foo" rfl (by decide) (by decide) (by decide) rfl
    (by decide) (by decide)

/-- C1, evaluated where it fails: `generate entity Foo --jh-dir=../test` in the
sample app, where `../test/.jhipster/Foo.json` exists and there is no local
cache. The command reports the file found and goes on to file generation;
it makes no copy and no write, so `.jhipster/Foo.json` is still absent and
`ignite/ignite.json` still names `../backend`. -/
theorem override_hit_copies_nothing :
    existsSync sampleWorld "../test/.jhipster/Foo.json" = true ∧
    (entity (sampleContext (some "Foo") (some "../test")) sampleWorld []).trace
      = [Event.readJson "ignite/ignite.json",
         Event.existsSync ".jhipster/Foo.json",
         Event.existsSync "../test/.jhipster/Foo.json",
         Event.success "Found the entity config at ../test/.jhipster/Foo.json",
         Event.generateFiles "Foo" (Value.obj sampleConfig),
         Event.trackEntityOptions,
         Event.success "Entity successfully generated!"] ∧
    (entity (sampleContext (some "Foo") (some "../test")) sampleWorld []).world
        ".jhipster/Foo.json" = none ∧
    (entity (sampleContext (some "Foo") (some "../test")) sampleWorld []).world
        "ignite/ignite.json"
      = some (Node.file (some (Value.obj
          [("jhipsterDirectory", Value.str "../backend"), ("generators", Value.obj [])]))) ∧
    (entity (sampleContext (some "Foo") (some "../test")) sampleWorld []).outcome
      = Outcome.generated := by
  decide

theorem count_ask_missed (default : Value) (f : String → String) (missed : List String) :
    List.count (Event.ask default) (missed.flatMap (fun a =>
      [Event.ask default, Event.info ("Looking for " ++ f a), Event.existsSync (f a),
       Event.error "Could not find entity file, please try again."])) = missed.length := by
  induction missed with
  | nil => rfl
  | cons a missed ih =>
    rw [List.flatMap_cons, List.count_append, ih]
    simp [List.count_cons, Nat.add_comm]

theorem count_error_missed (default : Value) (f : String → String) (missed : List String) :
    List.count (Event.error "Could not find entity file, please try again.")
      (missed.flatMap (fun a =>
        [Event.ask default, Event.info ("Looking for " ++ f a), Event.existsSync (f a),
         Event.error "Could not find entity file, please try again."])) = missed.length := by
  induction missed with
  | nil => rfl
  | cons a missed ih =>
    rw [List.flatMap_cons, List.count_append, ih]
    simp [List.count_cons, Nat.add_comm]

theorem assignProp_directory (config : Obj) (v : Value) :
    assignProp (Value.obj config) "jhipsterDirectory" v
      = Value.obj (defineProp "jhipsterDirectory" v config) := by
  unfold assignProp
  simp only []
  rw [setProp_ordinary "jhipsterDirectory" v _ (by decide)]

theorem copy_file (w : World) (src dest : String) (content : Option Value)
    (hsrc : w src = some (Node.file content))
    (hanc : ∀ a ∈ ancestors dest, isFile w a = false)
    (hdest : w dest = none) :
    copy w src dest
      = some (fun p =>
          if p = dest then some (Node.file content)
          else if p ∈ ancestors dest ∧ w p = none then some Node.dir
          else w p) := by
  have hany : (ancestors dest).any (fun a => isFile w a) = false := by
    rw [List.any_eq_false]
    intro a ha
    simp [hanc a ha]
  have hd1 : isDir w dest = false := by simp [isDir, hdest]
  have hd2 : isFile w dest = false := by simp [isFile, hdest]
  simp [copy, hsrc, hany, hd1, hd2]

theorem prompt_run (ctx : Context) (w : World) (config : Obj)
    (missed : List String) (d : String) (later : List String) (P : String)
    (content : Option Value)
    (hP : ctx.strings.pascalCase ctx.parameters.first = P)
    (hname : ctx.strings.isBlank ctx.parameters.first = false)
    (hconfig : readJson w igniteConfigPath = some (Value.obj config))
    (hlocal : existsSync w (localEntityFilePath P) = false)
    (hflag : ctx.parameters.jhDir.getD "" = "")
    (hmissed : ∀ a ∈ missed, existsSync w (promptedPath (stripTrailingSlash a) P) = false)
    (hfound : w (promptedPath (stripTrailingSlash d) P) = some (Node.file content))
    (hdirs : ∀ a ∈ ancestors (localEntityFilePath P), isFile w a = false) :
    (entity ctx w (missed ++ d :: later)).outcome = Outcome.generated ∧
    (entity ctx w (missed ++ d :: later)).trace
      = [Event.readJson igniteConfigPath, Event.existsSync (localEntityFilePath P)]
        ++ missed.flatMap (fun a =>
          [Event.ask (readProp config "jhipsterDirectory"),
           Event.info ("Looking for " ++ promptedPath (stripTrailingSlash a) P),
           Event.existsSync (promptedPath (stripTrailingSlash a) P),
           Event.error "Could not find entity file, please try again."])
        ++ [Event.ask (readProp config "jhipsterDirectory"),
            Event.info ("Looking for " ++ promptedPath (stripTrailingSlash d) P),
            Event.existsSync (promptedPath (stripTrailingSlash d) P),
            Event.success ("Found entity file at " ++ promptedPath (stripTrailingSlash d) P),
            Event.existsSync ".jhipster"]
        ++ (if existsSync w ".jhipster" then [] else [Event.mkdirSync ".jhipster"])
        ++ [Event.copy (promptedPath (stripTrailingSlash d) P) (localEntityFilePath P),
            Event.success "Entity config saved to your app\x27s .jhipster folder.",
            Event.writeJson igniteConfigPath
              (Value.obj (defineProp "jhipsterDirectory" (Value.str (stripTrailingSlash d)) config)),
            Event.generateFiles P
              (Value.obj (defineProp "jhipsterDirectory" (Value.str (stripTrailingSlash d)) config)),
            Event.trackEntityOptions,
            Event.success "Entity successfully generated!"] ∧
    (entity ctx w (missed ++ d :: later)).world
      = writeJson
          (fun p =>
            if p = localEntityFilePath P then some (Node.file content)
            else if p ∈ ancestors (localEntityFilePath P) ∧
                (if existsSync w ".jhipster" then w else mkdirSync w ".jhipster") p = none then
              some Node.dir
            else (if existsSync w ".jhipster" then w else mkdirSync w ".jhipster") p)
          igniteConfigPath
          (Value.obj (defineProp "jhipsterDirectory" (Value.str (stripTrailingSlash d)) config)) := by
  subst hP
  have hsrc := promptedPath_ne_cacheDir (stripTrailingSlash d)
    (ctx.strings.pascalCase ctx.parameters.first)
  have hloc := localPath_ne_cacheDir (ctx.strings.pascalCase ctx.parameters.first)
  have hexists : existsSync w (promptedPath (stripTrailingSlash d)
      (ctx.strings.pascalCase ctx.parameters.first)) = true := by
    simp [existsSync, hfound]
  have hnone : w (localEntityFilePath (ctx.strings.pascalCase ctx.parameters.first)) = none := by
    simpa [existsSync] using hlocal
  have hasked := askUntilFound_found w (readProp config "jhipsterDirectory")
    (ctx.strings.pascalCase ctx.parameters.first) missed d later hmissed hexists
  by_cases hdir : existsSync w ".jhipster" = true
  · have hcopy := copy_file w _ _ content hfound hdirs hnone
    simp [entity, hname, hconfig, hlocal, hflag, getProp_obj, hasked, hdir, hcopy,
      finish, assignProp_directory]
  · have hfound1 : mkdirSync w ".jhipster" (promptedPath (stripTrailingSlash d)
        (ctx.strings.pascalCase ctx.parameters.first)) = some (Node.file content) := by
      simp [mkdirSync, hsrc, hfound]
    have hnone1 : mkdirSync w ".jhipster"
        (localEntityFilePath (ctx.strings.pascalCase ctx.parameters.first)) = none := by
      simp [mkdirSync, hloc, hnone]
    have hdirs1 : ∀ a ∈ ancestors (localEntityFilePath
        (ctx.strings.pascalCase ctx.parameters.first)),
        isFile (mkdirSync w ".jhipster") a = false := by
      intro a ha
      by_cases hja : a = ".jhipster"
      · simp [isFile, mkdirSync, hja]
      · have := hdirs a ha
        simpa [isFile, mkdirSync, hja] using this
    have hcopy := copy_file (mkdirSync w ".jhipster") _ _ content hfound1 hdirs1 hnone1
    simp [entity, hname, hconfig, hlocal, hflag, getProp_obj, hasked, hdir, hcopy,
      finish, assignProp_directory]

/-- C8: interactive resolution. For every non-blank entity name, `P` its
PascalCase form, without a local cache file and without an override, in a
project whose `ignite/ignite.json` holds a JSON object and in which no
regular file stands where a directory above `.jhipster/P.json` is needed
(so `.jhipster`, if it exists, is a directory), and every sequence of
answers of which `d` is the first whose path (one trailing slash removed,
then `/.jhipster/P.json`) exists, a regular file, after `missed` answers
whose paths do not: the command runs to the end; it asks once per answer up
to `d` and reports one miss per answer in `missed`; its operations are
exactly the listed ones, so nothing is written before the last answer; then
`.jhipster` is created if absent, the found file is copied to the local
cache path, and the configuration is written with `jhipsterDirectory` set
to the stripped `d` and every other key as it was. No other path of the
working tree changes. -/
theorem prompt_until_found (ctx : Context) (w : World) (config : Obj)
    (missed : List String) (d : String) (later : List String) (P : String)
    (content : Option Value)
    (hP : ctx.strings.pascalCase ctx.parameters.first = P)
    (hname : ctx.strings.isBlank ctx.parameters.first = false)
    (hconfig : readJson w igniteConfigPath = some (Value.obj config))
    (hlocal : existsSync w (localEntityFilePath P) = false)
    (hflag : ctx.parameters.jhDir.getD "" = "")
    (hmissed : ∀ a ∈ missed, existsSync w (promptedPath (stripTrailingSlash a) P) = false)
    (hfound : w (promptedPath (stripTrailingSlash d) P) = some (Node.file content))
    (hdirs : ∀ a ∈ ancestors (localEntityFilePath P), isFile w a = false) :
    (entity ctx w (missed ++ d :: later)).outcome = Outcome.generated ∧
    (entity ctx w (missed ++ d :: later)).trace
      = [Event.readJson igniteConfigPath, Event.existsSync (localEntityFilePath P)]
        ++ missed.flatMap (fun a =>
          [Event.ask (readProp config "jhipsterDirectory"),
           Event.info ("Looking for " ++ promptedPath (stripTrailingSlash a) P),
           Event.existsSync (promptedPath (stripTrailingSlash a) P),
           Event.error "Could not find entity file, please try again."])
        ++ [Event.ask (readProp config "jhipsterDirectory"),
            Event.info ("Looking for " ++ promptedPath (stripTrailingSlash d) P),
            Event.existsSync (promptedPath (stripTrailingSlash d) P),
            Event.success ("Found entity file at " ++ promptedPath (stripTrailingSlash d) P),
            Event.existsSync ".jhipster"]
        ++ (if existsSync w ".jhipster" then [] else [Event.mkdirSync ".jhipster"])
        ++ [Event.copy (promptedPath (stripTrailingSlash d) P) (localEntityFilePath P),
            Event.success "Entity config saved to your app\x27s .jhipster folder.",
            Event.writeJson igniteConfigPath
              (Value.obj (defineProp "jhipsterDirectory" (Value.str (stripTrailingSlash d)) config)),
            Event.generateFiles P
              (Value.obj (defineProp "jhipsterDirectory" (Value.str (stripTrailingSlash d)) config)),
            Event.trackEntityOptions,
            Event.success "Entity successfully generated!"] ∧
    List.count (Event.ask (readProp config "jhipsterDirectory"))
      (entity ctx w (missed ++ d :: later)).trace = missed.length + 1 ∧
    List.count (Event.error "Could not find entity file, please try again.")
      (entity ctx w (missed ++ d :: later)).trace = missed.length ∧
    (entity ctx w (missed ++ d :: later)).world (localEntityFilePath P)
      = w (promptedPath (stripTrailingSlash d) P) ∧
    (entity ctx w (missed ++ d :: later)).world igniteConfigPath
      = some (Node.file (some (Value.obj
          (defineProp "jhipsterDirectory" (Value.str (stripTrailingSlash d)) config)))) ∧
    getKey "jhipsterDirectory"
        (defineProp "jhipsterDirectory" (Value.str (stripTrailingSlash d)) config)
      = some (Value.str (stripTrailingSlash d)) ∧
    (∀ k, k ≠ "jhipsterDirectory" →
      getKey k (defineProp "jhipsterDirectory" (Value.str (stripTrailingSlash d)) config)
        = getKey k config) ∧
    (entity ctx w (missed ++ d :: later)).world ".jhipster"
      = (if existsSync w ".jhipster" then w ".jhipster" else some Node.dir) ∧
    (∀ p, p ≠ localEntityFilePath P → p ≠ igniteConfigPath → p ≠ ".jhipster" →
      p ∉ ancestors (localEntityFilePath P) →
      (entity ctx w (missed ++ d :: later)).world p = w p) := by
  have hloc := localPath_ne_cacheDir P
  have hcfg := localPath_ne_config P
  obtain ⟨hout, htrace, hworld⟩ :=
    prompt_run ctx w config missed d later P content hP hname hconfig hlocal hflag hmissed
      hfound hdirs
  refine ⟨hout, htrace, ?_, ?_, ?_, ?_, ?_, ?_, ?_, ?_⟩
  · rw [htrace]
    simp only [List.count_append, count_ask_missed]
    by_cases hdir : existsSync w ".jhipster" = true <;> simp [hdir, List.count_cons]
  · rw [htrace]
    simp only [List.count_append, count_error_missed]
    by_cases hdir : existsSync w ".jhipster" = true <;> simp [hdir, List.count_cons]
  · rw [hworld]
    simp [writeJson, hcfg, hfound]
  · rw [hworld]
    simp [writeJson]
  · rw [getKey_defineProp, if_pos rfl]
  · intro k hk
    rw [getKey_defineProp, if_neg hk]
  · rw [hworld]
    have h1 : (".jhipster" : String) ≠ igniteConfigPath := by decide
    by_cases hdir : existsSync w ".jhipster" = true
    · have hsome : w ".jhipster" ≠ none := by
        intro h; simp [existsSync, h] at hdir
      simp [writeJson, h1, hloc.symm, hdir, hsome]
    · simp [writeJson, h1, hloc.symm, hdir, mkdirSync]
  · intro p hp1 hp2 hp3 hp4
    rw [hworld]
    by_cases hdir : existsSync w ".jhipster" = true
    · simp [writeJson, hp1, hp2, hp4, hdir]
    · simp [writeJson, hp1, hp2, hp3, hp4, hdir, mkdirSync]

/-- Witness of C8: in the sample app, where `.jhipster` does not exist yet, the
user first answers `../elsewhere/`, which does not hold `Foo`, then
`../test/`, which does. Two prompts, one miss; `Foo` is copied to the local
cache and the configuration names `../test`, its other key unchanged. -/
theorem prompt_until_found_witness :
    ancestors (localEntityFilePath "Foo") = [".jhipster"] ∧
    (entity (sampleContext (some "Foo") none) sampleWorld
      (["../elsewhere/"] ++ "../test/" :: [])).outcome = Outcome.generated ∧
    List.count (Event.ask (readProp sampleConfig "jhipsterDirectory"))
      (entity (sampleContext (some "Foo") none) sampleWorld
        (["../elsewhere/"] ++ "../test/" :: [])).trace = 2 ∧
    List.count (Event.error "Could not find entity file, please try again.")
      (entity (sampleContext (some "Foo") none) sampleWorld
        (["../elsewhere/"] ++ "../test/" :: [])).trace = 1 ∧
    (entity (sampleContext (some "Foo") none) sampleWorld
        (["../elsewhere/"] ++ "../test/" :: [])).world ".jhipster/Foo.json"
      = some (Node.file (some sampleEntity)) ∧
    (entity (sampleContext (some "Foo") none) sampleWorld
        (["../elsewhere/"] ++ "../test/" :: [])).world "ignite/ignite.json"
      = some (Node.file (some (Value.obj
          [("jhipsterDirectory", Value.str "../test"), ("generators", Value.obj [])]))) :=
  have h := prompt_until_found (sampleContext (some "Foo") none) sampleWorld sampleConfig
    ["../elsewhere/"] "../test/" [] "Foo" (some sampleEntity) rfl (by decide) (by decide)
    (by decide) (by decide) (by decide) (by decide) (by decide)
  ⟨by decide, h.1, h.2.2.1, h.2.2.2.1, h.2.2.2.2.1.trans (by decide),
    h.2.2.2.2.2.1.trans (by decide)⟩

/-! ## setupVariables: claim C10 -/

/-- C10: in `setupVariables`, for every loaded JHipster configuration `c` (a
value other than `undefined` and `null`, on which the read of
`authenticationType` throws before `config.set` is reached), `config.set` is
called, and the object passed to it agrees with `c` on every key of `c`,
because `c` is spread after the `reactNative` block: a `reactNative` entry
of `c` is what is passed on, the computed block is passed only when `c` has
no `reactNative` key, and there are no keys besides those of `c` and
`reactNative`. -/
theorem config_set_keeps_loaded_config (lodash : Lodash) (packageVersion : Value)
    (yoRc : Option Value) (g : Generator) (c : Value) (context : GenContext)
    (hload : loadJHipsterConfig lodash yoRc g = some (c, context))
    (hundef : c ≠ Value.undefined) (hnull : c ≠ Value.null) :
    ∃ r, setupVariables lodash packageVersion yoRc g = some r ∧
      (∀ k v, getKey k (ownProps c) = some v → getKey k r.configSet = some v) ∧
      (getKey "reactNative" (ownProps c) = none →
        getKey "reactNative" r.configSet
          = some (Value.obj [("reactNativeAppName", context.reactNativeAppName),
              ("detox", context.detox), ("backend", g.directoryPath)])) ∧
      (∀ k, k ≠ "reactNative" → getKey k (ownProps c) = none →
        getKey k r.configSet = none) := by
  obtain ⟨auth, hauth⟩ : ∃ auth, getProp c "authenticationType" = some auth := by
    cases c with
    | undefined => exact absurd rfl hundef
    | null => exact absurd rfl hnull
    | bool b => exact ⟨_, rfl⟩
    | num n => exact ⟨_, rfl⟩
    | str s => exact ⟨_, rfl⟩
    | arr items => exact ⟨_, rfl⟩
    | obj entries => exact ⟨_, rfl⟩
  have hrun : setupVariables lodash packageVersion yoRc g
      = some
        { context := { context with
            skipCommitHook := g.skipCommitHook,
            packageVersion := packageVersion,
            authenticationType := auth },
          configSet := defineAll (ownProps c)
            [("reactNative", reactNativeBlock { context with
              skipCommitHook := g.skipCommitHook,
              packageVersion := packageVersion,
              authenticationType := auth } g.directoryPath)] } := by
    simp only [setupVariables, hload, hauth]
  refine ⟨_, hrun, ?_, ?_, ?_⟩
  · intro k v hv
    simp only [getKey_defineAll, hv, Option.or_some]
  · intro hn
    simp only [getKey_defineAll, hn, Option.none_or, reactNativeBlock]
    rfl
  · intro k hk hn
    have hk' : ¬ "reactNative" = k := fun h => hk h.symm
    simp [getKey_defineAll, hn, getKey_cons, getKey_nil, hk']

/-- Witness of C10: an existing project whose stored configuration has a
`reactNative` entry; that entry, not the computed block, is passed to
`config.set`. -/
theorem config_set_keeps_loaded_config_witness :
    ∃ r, setupVariables sampleLodash (Value.str "1.0.0") none sampleGenerator = some r ∧
      getKey "reactNative" r.configSet
        = some (Value.obj [("reactNativeAppName", Value.str "Mobile"),
            ("detox", Value.bool false)]) ∧
      getKey "baseName" r.configSet = some (Value.str "jhipster") :=
  have h := config_set_keeps_loaded_config sampleLodash (Value.str "1.0.0") none sampleGenerator
    (Value.obj sampleStored)
    { sampleGenerator.context with
      reactNativeAppName :=
        Value.str (sampleLodash.upperFirst (sampleLodash.camelCase
          (readProp sampleStored "baseName"))),
      detox := Value.bool true }
    rfl (by decide) (by decide)
  h.elim (fun r hr => ⟨r, hr.1, hr.2.1 "reactNative" _ (by decide), hr.2.1 "baseName" _ (by decide)⟩)

/-! ## Supporting facts on the other paths of the entity command -/

theorem unreadable_config_throws (ctx : Context) (w : World) (answers : List String)
    (hname : ctx.strings.isBlank ctx.parameters.first = false)
    (hconfig : readJson w igniteConfigPath = none) :
    (entity ctx w answers).trace = [Event.readJson igniteConfigPath] ∧
    (entity ctx w answers).world = w ∧
    (entity ctx w answers).outcome = Outcome.threw := by
  simp [entity, hname, hconfig]

theorem override_hit_run (ctx : Context) (w : World) (answers : List String)
    (config : Obj) (D : String)
    (hname : ctx.strings.isBlank ctx.parameters.first = false)
    (hconfig : readJson w igniteConfigPath = some (Value.obj config))
    (hlocal : existsSync w
      (localEntityFilePath (ctx.strings.pascalCase ctx.parameters.first)) = false)
    (hflag : ctx.parameters.jhDir = some D) (hD : D ≠ "")
    (hhit : existsSync w
      (overridePath D (ctx.strings.pascalCase ctx.parameters.first)) = true) :
    (entity ctx w answers).trace
      = [Event.readJson igniteConfigPath,
         Event.existsSync (localEntityFilePath (ctx.strings.pascalCase ctx.parameters.first)),
         Event.existsSync (overridePath D (ctx.strings.pascalCase ctx.parameters.first)),
         Event.success ("Found the entity config at " ++
           overridePath D (ctx.strings.pascalCase ctx.parameters.first)),
         Event.generateFiles (ctx.strings.pascalCase ctx.parameters.first) (Value.obj config),
         Event.trackEntityOptions,
         Event.success "Entity successfully generated!"] ∧
    (entity ctx w answers).world = w ∧
    (entity ctx w answers).outcome = Outcome.generated := by
  simp [entity, hname, hconfig, hlocal, hflag, hD, hhit, getProp_obj, finish]

theorem askUntilFound_exhausted (w : World) (default : Value) (name : String)
    (answers : List String)
    (hmissed : ∀ a ∈ answers, existsSync w (promptedPath (stripTrailingSlash a) name) = false) :
    (askUntilFound w default name answers).2 = none := by
  induction answers with
  | nil => rfl
  | cons a answers ih =>
    have ha := hmissed a (List.mem_cons_self _ _)
    have ih' := ih (fun x hx => hmissed x (List.mem_cons_of_mem _ hx))
    simp [askUntilFound, ha, ih']

theorem copy_under_regular_file_throws :
    (entity (sampleContext (some "Foo") none) blockedWorld ["../test"]).outcome
      = Outcome.threw ∧
    (entity (sampleContext (some "Foo") none) blockedWorld ["../test"]).trace
      = [Event.readJson "ignite/ignite.json",
         Event.existsSync ".jhipster/Foo.json",
         Event.ask (Value.str "../backend"),
         Event.info "Looking for ../test/.jhipster/Foo.json",
         Event.existsSync "../test/.jhipster/Foo.json",
         Event.success "Found entity file at ../test/.jhipster/Foo.json",
         Event.existsSync ".jhipster",
         Event.copy "../test/.jhipster/Foo.json" ".jhipster/Foo.json"] ∧
    (entity (sampleContext (some "Foo") none) blockedWorld ["../test"]).world
        ".jhipster/Foo.json" = none ∧
    (entity (sampleContext (some "Foo") none) blockedWorld ["../test"]).world
        "ignite/ignite.json" = some (Node.file (some (Value.obj sampleConfig))) := by
  decide
